import Mathlib

/-!
Verification of the parallel build coordinator.

Shallow embedding of the coordinator core: the VCS merge driver
(`merge.py`), the tier scheduler (`scheduler.py`), the tracker status
client (`linear_status.py`), the coordinator merge/retry phases and wave
decomposition (`parallel.py`), and the job queue driver
(`queue_runner.py`).  External effects (git subprocess output, tracker
responses, child-process exits, wall-clock timestamps, file contents) are
modelled as explicit inputs; every definition below is translated from
the corresponding Python function.
-/

/-! ## String helpers (Python `in` substring test and `str.lower`) -/

/-- Python `pat` is a prefix of `l`, on character lists. -/
def charsStartWith : List Char → List Char → Bool
  | [], _ => true
  | _ :: _, [] => false
  | a :: as, b :: bs => a == b && charsStartWith as bs

/-- Python `pat in l` substring containment, on character lists. -/
def charsContain (pat : List Char) : List Char → Bool
  | [] => charsStartWith pat []
  | b :: bs => charsStartWith pat (b :: bs) || charsContain pat bs

/-- Python `pat in s` for strings. -/
def strContains (s pat : String) : Bool :=
  charsContain pat.data s.data

/-- Python `s.lower()` (on the ASCII range, which is all the embedded
code compares after lowering). -/
def strLower (s : String) : String :=
  ⟨s.data.map Char.toLower⟩

namespace Merge

/-- The `MergeResult` dataclass from `merge.py`. -/
structure MergeResult where
  branch : String
  success : Bool
  conflict : Bool := false
  error : String := ""
  deriving Repr, DecidableEq

/-- Function `merge_branch` from `merge.py`, as a function of the git subprocess
outcome `(rc, stdout, stderr)` of `git merge --no-ff -m … branch`. -/
def merge_branch (branch : String) (rc : Int) (stdout stderr : String) :
    MergeResult :=
  if rc = 0 then
    { branch := branch, success := true }
  else if strContains (strLower stderr) "conflict"
      || strContains (strLower stdout) "conflict" then
    { branch := branch, success := false, conflict := true }
  else
    { branch := branch, success := false, error := stderr }

end Merge

namespace Scheduler

/-- The `CATEGORY_TIERS` dict from `scheduler.py`. -/
def CATEGORY_TIERS (c : String) : Option Nat :=
  if c = "setup" then some 1
  else if c = "backend" then some 2
  else if c = "frontend" then some 3
  else if c = "a2ui-catalog" then some 3
  else if c = "feature" then some 4
  else if c = "styling" then some 5
  else if c = "testing" then some 6
  else if c = "integration" then some 7
  else none

/-- The `SEQUENTIAL_TIERS` set from `scheduler.py`. -/
def SEQUENTIAL_TIERS : List Nat := [1, 7]

/-- The `TIER_DESCRIPTIONS` table from `scheduler.py`. -/
def TIER_DESCRIPTIONS (t : Nat) : Option String :=
  if t = 1 then some "setup (project foundation)"
  else if t = 2 then some "backend (API and data layer)"
  else if t = 3 then some "frontend + a2ui-catalog (UI components)"
  else if t = 4 then some "feature (integration features)"
  else if t = 5 then some "styling (visual polish)"
  else if t = 6 then some "testing (validation)"
  else if t = 7 then some "integration (cross-cutting)"
  else none

def DEFAULT_TIER : Nat := 4

/-- An input issue dict: `build_plan` reads `issue["id"]` and
`issue.get("category", "")` (a missing category behaves as `""`). -/
structure Issue where
  id : String
  category : String
  deriving Repr, DecidableEq

/-- Python `CATEGORY_TIERS.get(issue.get("category", "").lower(), DEFAULT_TIER)`. -/
def tierOf (category : String) : Nat :=
  (CATEGORY_TIERS (strLower category)).getD DEFAULT_TIER

/-- The `ExecutionTier` dataclass from `scheduler.py`. -/
structure ExecutionTier where
  tier : Nat
  issue_ids : List String
  description : String
  sequential : Bool := false
  deriving Repr, DecidableEq

/-- Property `ExecutionTier.size`. -/
def ExecutionTier.size (t : ExecutionTier) : Nat :=
  t.issue_ids.length

/-- The `ParallelPlan` dataclass from `scheduler.py`. -/
structure ParallelPlan where
  tiers : List ExecutionTier
  max_parallelism : Nat
  created_at : String := ""
  total_issues : Nat := 0
  deriving Repr, DecidableEq

/-- Construction of a `ParallelPlan`: `__post_init__` always sets
`total_issues = sum(t.size for t in self.tiers)`. -/
def mkParallelPlan (tiers : List ExecutionTier) (max_parallelism : Nat)
    (created_at : String) : ParallelPlan :=
  { tiers := tiers
    max_parallelism := max_parallelism
    created_at := created_at
    total_issues := (tiers.map ExecutionTier.size).sum }

/-- One entry of the `tiers` list in the serialized plan document.
`sequential` and `created_at` may be absent in hand-written documents, so
they are optional; `from_dict` reads them with defaults. -/
structure TierDict where
  tier : Nat
  description : String
  sequential : Option Bool
  issue_ids : List String
  deriving Repr, DecidableEq

/-- The serialized plan document (`.parallel_plan.json`). -/
structure PlanDict where
  created_at : Option String
  max_parallelism : Nat
  total_issues : Nat
  tiers : List TierDict
  deriving Repr, DecidableEq

/-- Method `ParallelPlan.to_dict` from `scheduler.py`. -/
def ParallelPlan.to_dict (p : ParallelPlan) : PlanDict :=
  { created_at := some p.created_at
    max_parallelism := p.max_parallelism
    total_issues := p.total_issues
    tiers := p.tiers.map fun t =>
      { tier := t.tier
        description := t.description
        sequential := some t.sequential
        issue_ids := t.issue_ids } }

/-- Method `ParallelPlan.from_dict` from `scheduler.py` (`__post_init__`
recomputes `total_issues`, so the document's `total_issues` is ignored). -/
def ParallelPlan.from_dict (data : PlanDict) : ParallelPlan :=
  mkParallelPlan
    (data.tiers.map fun t =>
      { tier := t.tier
        issue_ids := t.issue_ids
        description := t.description
        sequential := t.sequential.getD false })
    data.max_parallelism
    (data.created_at.getD "")

/-- The sorted distinct tier numbers occurring in an issue list:
`sorted(tier_groups.keys())` in `build_plan`. -/
def planTierNums (issues : List Issue) : List Nat :=
  List.insertionSort (· ≤ ·) ((issues.map fun i => tierOf i.category).dedup)

/-- The identifier group for one tier number: the dict value built by
`tier_groups.setdefault(tier_num, []).append(issue["id"])`, i.e. the
input-order identifiers of the issues mapped to that tier. -/
def tierGroup (issues : List Issue) (tier_num : Nat) : List String :=
  (issues.filter fun i => tierOf i.category == tier_num).map Issue.id

/-- Function `build_plan` from `scheduler.py`. -/
def build_plan (issues : List Issue) (max_parallelism : Nat := 2) :
    ParallelPlan :=
  let tiers := (planTierNums issues).map fun tier_num =>
    { tier := tier_num
      issue_ids := tierGroup issues tier_num
      description := (TIER_DESCRIPTIONS tier_num).getD ("tier " ++ toString tier_num)
      sequential := SEQUENTIAL_TIERS.contains tier_num : ExecutionTier }
  mkParallelPlan tiers max_parallelism ""

/-- The tier scan loop of `get_ready_issues`. -/
def getReadyLoop (completed : List String) :
    List ExecutionTier → List String × Option ExecutionTier
  | [] => ([], none)
  | tier :: rest =>
    let remaining := tier.issue_ids.filter fun iid => !completed.contains iid
    if remaining.isEmpty then getReadyLoop completed rest
    else (remaining, some tier)

/-- Function `get_ready_issues` from `scheduler.py`; the completed set of issue
identifiers is modelled as a list queried by membership. -/
def get_ready_issues (plan : ParallelPlan) (completed : List String) :
    List String × Option ExecutionTier :=
  getReadyLoop completed plan.tiers

end Scheduler

namespace LinearStatus

/-- The `state` sub-object of a tracker response (`issue.get("state", {})`);
missing keys are `none`. -/
structure StateObj where
  name : Option String := none
  stype : Option String := none
  deriving Repr, DecidableEq

/-- The `issue` sub-object of a tracker response
(`result.output.value.get("issue", {})`); missing keys are `none`. -/
structure IssueObj where
  identifier : Option String := none
  title : Option String := none
  state : Option StateObj := none
  completed_at : Option String := none
  deriving Repr, DecidableEq

/-- Outcome of one `client.tools.execute` call: a response object, or any
raised exception (caught by the `except Exception` handler). -/
inductive FetchOutcome where
  | ok : IssueObj → FetchOutcome
  | err : String → FetchOutcome
  deriving Repr, DecidableEq

/-- The status record returned by `get_issue_status`. -/
structure IssueStatus where
  identifier : String
  title : String
  state_name : String
  state_type : String
  completed_at : Option String
  deriving Repr, DecidableEq

/-- The `COMPLETED_STATE_TYPES` set from `linear_status.py`. -/
def COMPLETED_STATE_TYPES : List String := ["completed"]

/-- The `CANCELLED_STATE_TYPES` set from `linear_status.py`. -/
def CANCELLED_STATE_TYPES : List String := ["canceled"]

/-- Function `get_issue_status` from `linear_status.py`, as a function of the
tracker call's outcome. -/
def get_issue_status (outcome : FetchOutcome) (issue_identifier : String) :
    IssueStatus :=
  match outcome with
  | .ok issue =>
    let state := issue.state.getD {}
    { identifier := issue.identifier.getD issue_identifier
      title := issue.title.getD ""
      state_name := state.name.getD "Unknown"
      state_type := state.stype.getD "unknown"
      completed_at := issue.completed_at }
  | .err _ =>
    { identifier := issue_identifier
      title := ""
      state_name := "Unknown"
      state_type := "unknown"
      completed_at := none }

/-- Python `set.add`: insert if absent (sets are modelled as
duplicate-free lists in insertion order). -/
def setInsert (s : List String) (x : String) : List String :=
  if s.contains x then s else s ++ [x]

/-- Python dict assignment `m[k] = v`: overwrite if the key is present,
append otherwise (dicts are modelled as key-ordered association lists). -/
def dictInsert (m : List (String × IssueStatus)) (k : String)
    (v : IssueStatus) : List (String × IssueStatus) :=
  if m.any fun p => p.1 == k then
    m.map fun p => if p.1 == k then (k, v) else p
  else m ++ [(k, v)]

/-- The `for i, identifier in enumerate(issue_identifiers)` loop of
`check_issue_statuses`; `oracle i` is the outcome of the `i`-th tracker
call. -/
def checkLoop (oracle : Nat → FetchOutcome) :
    List String → Nat →
    List String × List String × List (String × IssueStatus) →
    List String × List String × List (String × IssueStatus)
  | [], _, acc => acc
  | identifier :: rest, i, (completed, cancelled, status_map) =>
    let status := get_issue_status (oracle i) identifier
    let status_map' := dictInsert status_map identifier status
    if COMPLETED_STATE_TYPES.contains status.state_type then
      checkLoop oracle rest (i + 1)
        (setInsert completed identifier, cancelled, status_map')
    else if CANCELLED_STATE_TYPES.contains status.state_type then
      checkLoop oracle rest (i + 1)
        (completed, setInsert cancelled identifier, status_map')
    else
      checkLoop oracle rest (i + 1) (completed, cancelled, status_map')

/-- Function `check_issue_statuses` from `linear_status.py`. -/
def check_issue_statuses (oracle : Nat → FetchOutcome)
    (issue_identifiers : List String) :
    List String × List String × List (String × IssueStatus) :=
  checkLoop oracle issue_identifiers 0 ([], [], [])

end LinearStatus

namespace LinearStatus

/-- Closed form (used only in proofs) of the status map `checkLoop`
builds over a duplicate-free identifier list. -/
def statusesOf (oracle : Nat → FetchOutcome) :
    List String → Nat → List (String × IssueStatus)
  | [], _ => []
  | identifier :: rest, i =>
    (identifier, get_issue_status (oracle i) identifier) ::
      statusesOf oracle rest (i + 1)

/-- Closed form (used only in proofs) of the completed set `checkLoop`
builds over a duplicate-free identifier list. -/
def completedOf (oracle : Nat → FetchOutcome) :
    List String → Nat → List String
  | [], _ => []
  | identifier :: rest, i =>
    if COMPLETED_STATE_TYPES.contains
        (get_issue_status (oracle i) identifier).state_type then
      identifier :: completedOf oracle rest (i + 1)
    else completedOf oracle rest (i + 1)

/-- Closed form (used only in proofs) of the cancelled set `checkLoop`
builds over a duplicate-free identifier list. -/
def cancelledOf (oracle : Nat → FetchOutcome) :
    List String → Nat → List String
  | [], _ => []
  | identifier :: rest, i =>
    if COMPLETED_STATE_TYPES.contains
        (get_issue_status (oracle i) identifier).state_type then
      cancelledOf oracle rest (i + 1)
    else if CANCELLED_STATE_TYPES.contains
        (get_issue_status (oracle i) identifier).state_type then
      identifier :: cancelledOf oracle rest (i + 1)
    else cancelledOf oracle rest (i + 1)

end LinearStatus

namespace Parallel

open Merge

/-- The `BRANCH_PREFIX` constant from `parallel.py`. -/
def BRANCH_PREFIX : String := "parallel"

/-- Function `_make_branch_name` from `parallel.py`. -/
def make_branch_name (issue_id : String) : String :=
  BRANCH_PREFIX ++ "/" ++ issue_id

/-- A worker result dict as consumed by the coordinator's merge phase:
`result.get("status")` and `result.get("branch", …)` — both keys may be
absent in a loaded result file. -/
structure WResult where
  status : Option String := none
  branch : Option String := none
  deriving Repr, DecidableEq

/-- Python `result.get("branch", _make_branch_name(issue_id))`. -/
def branchUsed (issue_id : String) (result : WResult) : String :=
  result.branch.getD (make_branch_name issue_id)

/-- The coordinator state mutated by the merge phase and the sequential
retry pass: `completed` (the local skip set, together with
`progress.completed_issues` / `tier_progress.completed_ids`), the failed
set (`progress.failed_issues` / `tier_progress.failed_ids`), the
re-queued set (`progress.requeued_issues`), the re-queue list (`requeued`,
remembered for the retry pass), plus logs of every `merge_branch` and
`delete_branch` call issued. -/
structure CoordState where
  completed : List String := []
  failed : List String := []
  requeuedSet : List String := []
  requeuedList : List String := []
  mergeAttempts : List String := []
  deletedBranches : List String := []
  deriving Repr, DecidableEq

open LinearStatus (setInsert)

/-- The merge phase of `run_parallel_agent` (`parallel.py`): iterate the
wave's `results.items()`; `mergeRes b` is the `MergeResult` returned by
`merge_branch(project_dir, b)`. -/
def mergePhase (mergeRes : String → MergeResult) :
    List (String × WResult) → CoordState → CoordState
  | [], st => st
  | (issue_id, result) :: rest, st =>
    if result.status == some "success" then
      let branch := branchUsed issue_id result
      let mr := mergeRes branch
      let st := { st with mergeAttempts := st.mergeAttempts ++ [branch] }
      if mr.success then
        mergePhase mergeRes rest
          { st with completed := setInsert st.completed issue_id
                    deletedBranches := st.deletedBranches ++ [branch] }
      else if mr.conflict then
        mergePhase mergeRes rest
          { st with requeuedSet := setInsert st.requeuedSet issue_id
                    requeuedList := st.requeuedList ++ [issue_id] }
      else
        mergePhase mergeRes rest
          { st with failed := setInsert st.failed issue_id }
    else
      mergePhase mergeRes rest
        { st with failed := setInsert st.failed issue_id }

/-- The sequential retry pass of `run_parallel_agent` (`parallel.py`):
for each re-queued issue, run a one-element wave (`retryResult id` is
`result_dict.get(issue_id, {})`, `none` when the result dict has no
entry) and, when the worker reported success, merge once more
(`retryMerge b` is that second `merge_branch` call's result). -/
def retryPass (retryResult : String → Option WResult)
    (retryMerge : String → MergeResult) :
    List String → CoordState → CoordState
  | [], st => st
  | issue_id :: rest, st =>
    let result := (retryResult issue_id).getD {}
    if result.status == some "success" then
      let branch := branchUsed issue_id result
      let mr := retryMerge branch
      let st := { st with mergeAttempts := st.mergeAttempts ++ [branch] }
      if mr.success then
        retryPass retryResult retryMerge rest
          { st with completed := setInsert st.completed issue_id
                    requeuedSet := st.requeuedSet.filter fun x => x ≠ issue_id
                    deletedBranches := st.deletedBranches ++ [branch] }
      else
        retryPass retryResult retryMerge rest st
    else
      retryPass retryResult retryMerge rest st

/-- The wave decomposition of `_run_tier_parallel` (`parallel.py`):
`for wave_start in range(0, len(tier_issues), max_workers):
wave = tier_issues[wave_start:wave_start + max_workers]` — each wave is
paired with its `wave_start`, and the worker index of the `i`-th issue of
a wave is `wave_start + i`. -/
def wavesFrom (max_workers : Nat) :
    List String → Nat → List (Nat × List String)
  | [], _ => []
  | x :: xs, wave_start =>
    (wave_start, x :: xs.take (max_workers - 1)) ::
      wavesFrom max_workers (xs.drop (max_workers - 1))
        (wave_start + max_workers)
termination_by l => l.length
decreasing_by
  simp only [List.length_drop, List.length_cons]
  omega

/-- All waves of a tier. -/
def waves (tier_issues : List String) (max_workers : Nat) :
    List (Nat × List String) :=
  wavesFrom max_workers tier_issues 0

end Parallel


/-- Scenario S1's issue list, extended with an unrecognized category. -/
def exIssues : List Scheduler.Issue :=
  [{ id := "T-1", category := "setup" },
   { id := "T-2", category := "setup" },
   { id := "T-3", category := "backend" },
   { id := "T-4", category := "frontend" },
   { id := "T-5", category := "a2ui-catalog" },
   { id := "T-6", category := "integration" },
   { id := "T-7", category := "widgets" }]

/-- Concrete tracker responses: call 0 returns a completed issue, call 1
errors, call 2 returns a canceled issue, later calls an unstarted one. -/
def exOracle : Nat → LinearStatus.FetchOutcome := fun i =>
  if i = 0 then
    .ok
      { identifier := some "M2A-1",
        title := some "one",
        state := some { name := some "Done", stype := some "completed" },
        completed_at := some "2026-01-01" }
  else if i = 1 then .err "timeout"
  else if i = 2 then
    .ok
      { state := some { name := some "Canceled", stype := some "canceled" } }
  else .ok {}

/-- Concrete merge outcomes used in the retry example: T-1 merges
cleanly, T-2 conflicts, every other branch fails without conflict. -/
def exMergeRes : String → Merge.MergeResult := fun b =>
  if b = "parallel/T-1" then { branch := b, success := true }
  else if b = "parallel/T-2" then
    { branch := b, success := false, conflict := true }
  else { branch := b, success := false, error := "boom" }

/-- Concrete wave results for the retry example. -/
def exResults : List (String × Parallel.WResult) :=
  [("T-1", { status := some "success" }),
   ("T-2", { status := some "success" }),
   ("T-3", { status := some "success" }),
   ("T-4", { status := some "error" })]

/-- Concrete retry-wave worker results: only T-2 is retried, successfully. -/
def exRetryResult : String → Option Parallel.WResult := fun issue_id =>
  if issue_id = "T-2" then some { status := some "success" } else none

/-- Concrete second-merge outcomes: every retry merge succeeds. -/
def exRetryMerge : String → Merge.MergeResult := fun b =>
  { branch := b, success := true }

namespace QueueRunner

/-- The `JobStatus` enum from `queue_runner.py`. -/
inductive JobStatus where
  | pending
  | running
  | completed
  | failed
  | interrupted
  deriving Repr, DecidableEq

/-- The `QueueJob` model from `queue_runner.py`.  `duration_seconds` (a
wall-clock float) is elided; the timestamp strings are carried verbatim. -/
structure QueueJob where
  id : String
  spec_path : String
  model : String := "haiku"
  max_iterations : Nat := 20
  parallel : Bool := false
  max_workers : Nat := 2
  status : JobStatus := .pending
  project_dir : Option String := none
  exit_code : Option Int := none
  error : Option String := none
  created_at : String := ""
  started_at : Option String := none
  completed_at : Option String := none
  deriving Repr, DecidableEq

instance : Inhabited QueueJob := ⟨{ id := "", spec_path := "" }⟩

/-- The `QueueState` model from `queue_runner.py`. -/
structure QueueState where
  version : Nat := 1
  jobs : List QueueJob := []
  deriving Repr, DecidableEq

/-- The contents of the two spec-file paths touched by `_run_job`:
`prompts/app_spec.txt` (`canonical`) and its `.txt.bak` sibling
(`backup`); `none` means the file does not exist. -/
structure FS where
  canonical : Option String := none
  backup : Option String := none
  deriving Repr, DecidableEq

/-- How the `subprocess.run` phase of `_run_job` ends: a normal child
exit with a code, a `KeyboardInterrupt`, or any other exception. -/
inductive RunOutcome where
  | exited : Int → RunOutcome
  | interruptedSig : RunOutcome
  | exc : String → RunOutcome
  deriving Repr, DecidableEq

/-- The environment of one `_run_job` call: the content of the job's
spec file (`none` when missing), whether its resolved path equals the
canonical spec path, the run outcome, and the wall-clock timestamps. -/
structure RunEnv where
  specContent : Option String := none
  specIsCanonical : Bool := false
  outcome : RunOutcome := .exited 0
  startedAt : String := ""
  completedAt : String := ""
  deriving Repr, DecidableEq

/-- Function `_run_job` from `queue_runner.py`, returning the updated job, the
final file state, the file state while the child ran (`none` when no
child ran), and whether a `KeyboardInterrupt` was re-raised. -/
def run_job (job : QueueJob) (env : RunEnv) (fs : FS) (dry_run : Bool) :
    QueueJob × FS × Option FS × Bool :=
  match env.specContent with
  | none =>
    ({ job with status := .failed
                error := some ("Spec file not found: " ++ job.spec_path) },
     fs, none, false)
  | some specBytes =>
    let job := { job with
      project_dir := some ("generations/" ++ job.id) }
    if dry_run then (job, fs, none, false)
    else
      -- Spec swap: backup → copy job spec → run → restore (`finally`).
      let spec_swapped := !env.specIsCanonical
      let fs1 : FS :=
        if spec_swapped then
          { canonical := some specBytes
            backup := if fs.canonical.isSome then fs.canonical
                      else fs.backup }
        else fs
      let job := { job with status := .running
                            started_at := some env.startedAt }
      let (job, raised) :=
        match env.outcome with
        | .exited code =>
          ({ job with
              exit_code := some code
              completed_at := some env.completedAt
              status :=
                if code = 0 then .completed
                else if code = 130 then .interrupted
                else .failed
              error :=
                if code = 0 ∨ code = 130 then job.error
                else some ("Process exited with code " ++ toString code) },
           false)
        | .interruptedSig =>
          ({ job with status := .interrupted
                      completed_at := some env.completedAt }, true)
        | .exc msg =>
          ({ job with status := .failed
                      error := some msg
                      completed_at := some env.completedAt }, false)
      let fs2 : FS :=
        if spec_swapped && fs1.backup.isSome then
          { canonical := fs1.backup, backup := none }
        else if spec_swapped && !fs1.backup.isSome then
          { canonical := none, backup := fs1.backup }
        else fs1
      (job, fs2, some fs1, raised)

/-- Membership test of `_get_processable_jobs`:
`status in (pending, interrupted, running)`. -/
def processableStatus : JobStatus → Bool
  | .pending => true
  | .interrupted => true
  | .running => true
  | _ => false

/-- Indices of the jobs `_get_processable_jobs` selects (the loop of
`cmd_start` iterates these jobs in list order, mutating them in place in
`state.jobs`). -/
def processableIdxs (jobs : List QueueJob) : List Nat :=
  (List.range jobs.length).filter fun i =>
    processableStatus (jobs.getD i default).status

/-- Result of the `cmd_start` processing loop: the final job list, the
final file state, every snapshot passed to `save_queue` (the `finally`
stage of the loop body) in order, and whether a `KeyboardInterrupt`
stopped the loop. -/
structure StartResult where
  jobs : List QueueJob
  fs : FS
  saves : List (List QueueJob)
  interrupted : Bool
  deriving Repr, DecidableEq

/-- The `for job in processable` loop of `cmd_start`: run each job,
`save_queue(state)` in the `finally` stage (skipped on `--dry-run`), and
break on `KeyboardInterrupt`.  `envs k` is the environment of the `k`-th
processed job. -/
def startLoop (envs : Nat → RunEnv) (dry_run : Bool) :
    List Nat → Nat → List QueueJob → FS → List (List QueueJob) →
    StartResult
  | [], _, jobs, fs, saves => ⟨jobs, fs, saves, false⟩
  | i :: rest, k, jobs, fs, saves =>
    let r := run_job (jobs.getD i default) (envs k) fs dry_run
    let jobs' := jobs.set i r.1
    let saves' := if dry_run then saves else saves ++ [jobs']
    if r.2.2.2 then ⟨jobs', r.2.1, saves', true⟩
    else startLoop envs dry_run rest (k + 1) jobs' r.2.1 saves'

/-- Function `cmd_start` from `queue_runner.py` (the job-processing part). -/
def cmd_start (jobs : List QueueJob) (envs : Nat → RunEnv) (fs : FS)
    (dry_run : Bool) : StartResult :=
  startLoop envs dry_run (processableIdxs jobs) 0 jobs fs []

/-- The arguments of the `add` subcommand. -/
structure AddArgs where
  spec_path : String
  id : String
  model : String := "haiku"
  max_iterations : Nat := 20
  parallel : Bool := false
  max_workers : Nat := 2
  deriving Repr, DecidableEq

/-- Function `cmd_add` from `queue_runner.py`: returns the exit code and the state
passed to `save_queue` (`none` when `save_queue` is never called).
`specExists` models the `spec.exists()` check and `now` the job's
`created_at` default factory. -/
def cmd_add (args : AddArgs) (specExists : Bool) (state : QueueState)
    (now : String) : Int × Option QueueState :=
  if !specExists then (1, none)
  else if (state.jobs.map QueueJob.id).contains args.id then (1, none)
  else
    let job : QueueJob :=
      { id := args.id
        spec_path := args.spec_path
        model := args.model
        max_iterations := args.max_iterations
        parallel := args.parallel
        max_workers := args.max_workers
        created_at := now }
    (0, some { state with jobs := state.jobs ++ [job] })

/-- The queue file content after `cmd_add`: unchanged unless `save_queue`
was called. -/
def persistedAfter (stored : QueueState) (saved : Option QueueState) :
    QueueState :=
  saved.getD stored

end QueueRunner

/-! ## C1 — merge-result exclusivity -/

/-- C1 counterexample: a failed merge whose combined output has no
"conflict" substring and whose stderr is empty yields a `MergeResult`
with `success = false`, `conflict = false` and an *empty* error message,
so "¬success ∧ ¬conflict ⇒ error message non-empty" fails as stated. -/
theorem merge_error_can_be_empty :
    (Merge.merge_branch "b" 1 "" "").success = false ∧
    (Merge.merge_branch "b" 1 "" "").conflict = false ∧
    (Merge.merge_branch "b" 1 "" "").error = "" := by
  decide

/-- C1 (amended): for every call to the VCS driver's merge operation,
success implies not conflict and conflict implies not success; when
neither success nor conflict holds, the error message equals the captured
stderr — hence it is non-empty whenever stderr is non-empty. -/
theorem merge_result_exclusive (branch : String) (rc : Int)
    (stdout stderr : String) :
    ((Merge.merge_branch branch rc stdout stderr).success = true →
      (Merge.merge_branch branch rc stdout stderr).conflict = false) ∧
    ((Merge.merge_branch branch rc stdout stderr).conflict = true →
      (Merge.merge_branch branch rc stdout stderr).success = false) ∧
    ((Merge.merge_branch branch rc stdout stderr).success = false →
      (Merge.merge_branch branch rc stdout stderr).conflict = false →
      (Merge.merge_branch branch rc stdout stderr).error = stderr ∧
        (stderr ≠ "" →
          (Merge.merge_branch branch rc stdout stderr).error ≠ "")) := by
  unfold Merge.merge_branch
  split
  · simp
  · split <;> simp_all

/-- Witness for C1's amended theorem at a concrete failed merge. -/
theorem merge_result_exclusive_witness :
    (Merge.merge_branch "b" 1 "out" "boom").error = "boom" ∧
    (Merge.merge_branch "b" 1 "out" "boom").error ≠ "" := by
  have h := (merge_result_exclusive "b" 1 "out" "boom").2.2
    (by decide) (by decide)
  exact ⟨h.1, h.2 (by decide)⟩

/-! ## C4 — plan round-trip -/

/-- C4: serializing a plan and deserializing it back yields a plan equal
to the original in all observable attributes; the hypothesis is the
`__post_init__` invariant that `total_issues` is the sum of the tier
sizes, which holds for every plan the code constructs. -/
theorem plan_round_trip (p : Scheduler.ParallelPlan)
    (h : p.total_issues = (p.tiers.map Scheduler.ExecutionTier.size).sum) :
    Scheduler.ParallelPlan.from_dict (Scheduler.ParallelPlan.to_dict p)
      = p := by
  cases p with
  | mk tiers maxp created total =>
    simp only at h
    subst h
    simp [Scheduler.ParallelPlan.to_dict, Scheduler.ParallelPlan.from_dict,
      Scheduler.mkParallelPlan, List.map_map, Function.comp_def,
      Scheduler.ExecutionTier.size]

/-- Witness for C4 at a concrete two-tier plan. -/
theorem plan_round_trip_witness :
    Scheduler.ParallelPlan.from_dict
      (Scheduler.ParallelPlan.to_dict
        (Scheduler.mkParallelPlan
          [{ tier := 1, issue_ids := ["T-1", "T-2"],
             description := "setup (project foundation)", sequential := true },
           { tier := 3, issue_ids := ["T-4"],
             description := "frontend + a2ui-catalog (UI components)" }]
          2 "2026-01-01T00:00:00+00:00"))
      = Scheduler.mkParallelPlan
          [{ tier := 1, issue_ids := ["T-1", "T-2"],
             description := "setup (project foundation)", sequential := true },
           { tier := 3, issue_ids := ["T-4"],
             description := "frontend + a2ui-catalog (UI components)" }]
          2 "2026-01-01T00:00:00+00:00" :=
  plan_round_trip _ (by decide)

/-! ## C3 — get_ready returns the first incomplete tier -/

/-- If the remaining-filter of a tier is empty, the whole tier is
contained in the completed set. -/
theorem tier_done_of_filter_empty (completed : List String)
    (ids : List String)
    (h : (ids.filter fun iid => !completed.contains iid) = []) :
    ∀ iid ∈ ids, iid ∈ completed := by
  intro iid hm
  have := List.filter_eq_nil_iff.mp h iid hm
  simpa using this

/-- Scan lemma for `getReadyLoop`, by induction on the tier list. -/
theorem getReadyLoop_spec (completed : List String) :
    ∀ tiers : List Scheduler.ExecutionTier,
    tiers.Pairwise (fun a b => a.tier < b.tier) →
    (∀ ids t, Scheduler.getReadyLoop completed tiers = (ids, some t) →
      t ∈ tiers ∧
      ids = t.issue_ids.filter (fun iid => !completed.contains iid) ∧
      ids ≠ [] ∧
      ∀ t' ∈ tiers, t'.tier < t.tier →
        ∀ iid ∈ t'.issue_ids, iid ∈ completed) ∧
    (∀ ids, Scheduler.getReadyLoop completed tiers = (ids, none) →
      ids = [] ∧ ∀ t' ∈ tiers, ∀ iid ∈ t'.issue_ids, iid ∈ completed)
  | [], _ => by
    constructor
    · intro ids t h
      simp [Scheduler.getReadyLoop] at h
    · intro ids h
      simp [Scheduler.getReadyLoop] at h
      simp [h]
  | tier :: rest, hp => by
    have hp' := (List.pairwise_cons.mp hp).2
    have hhead := (List.pairwise_cons.mp hp).1
    have ih := getReadyLoop_spec completed rest hp'
    by_cases hrem :
        (tier.issue_ids.filter fun iid => !completed.contains iid).isEmpty
    · have hdone : ∀ iid ∈ tier.issue_ids, iid ∈ completed :=
        tier_done_of_filter_empty completed tier.issue_ids
          (List.isEmpty_iff.mp hrem)
      have hloop : Scheduler.getReadyLoop completed (tier :: rest)
          = Scheduler.getReadyLoop completed rest := by
        rw [Scheduler.getReadyLoop]
        exact if_pos hrem
      constructor
      · intro ids t h
        rw [hloop] at h
        obtain ⟨hmem, hids, hne, hearlier⟩ := ih.1 ids t h
        refine ⟨List.mem_cons_of_mem _ hmem, hids, hne, ?_⟩
        intro t' ht' hlt
        rcases List.mem_cons.mp ht' with h1 | h1
        · exact h1 ▸ hdone
        · exact hearlier t' h1 hlt
      · intro ids h
        rw [hloop] at h
        obtain ⟨hids, hall⟩ := ih.2 ids h
        refine ⟨hids, ?_⟩
        intro t' ht'
        rcases List.mem_cons.mp ht' with h1 | h1
        · exact h1 ▸ hdone
        · exact hall t' h1
    · have hloop : Scheduler.getReadyLoop completed (tier :: rest)
          = (tier.issue_ids.filter fun iid => !completed.contains iid,
             some tier) := by
        rw [Scheduler.getReadyLoop]
        exact if_neg hrem
      constructor
      · intro ids t h
        rw [hloop] at h
        have h1 : (tier.issue_ids.filter fun iid => !completed.contains iid)
            = ids := congrArg Prod.fst h
        have h2 : tier = t := Option.some.inj (congrArg Prod.snd h)
        subst h2
        subst h1
        refine ⟨List.mem_cons_self .., rfl, ?_, ?_⟩
        · intro hnil
          rw [hnil] at hrem
          exact hrem List.isEmpty_nil
        · intro t' ht' hlt
          rcases List.mem_cons.mp ht' with h3 | h3
          · subst h3
            exact absurd hlt (lt_irrefl _)
          · exact absurd hlt (not_lt_of_gt (hhead t' h3))
      · intro ids h
        rw [hloop] at h
        exact absurd (congrArg Prod.snd h) (by simp)

/-- C3: for any plan whose tier indices are strictly ascending (the plan
data-model invariant) and any completed set, `get_ready_issues` returns
the first tier with an unfinished identifier together with exactly that
tier's unfinished identifiers in stored order (so every tier of smaller
index is contained in the completed set), and returns an empty list and
no tier when every tier is fully completed. -/
theorem get_ready_first_incomplete_tier (plan : Scheduler.ParallelPlan)
    (completed : List String)
    (hsorted : plan.tiers.Pairwise (fun a b => a.tier < b.tier)) :
    (∀ ids t, Scheduler.get_ready_issues plan completed = (ids, some t) →
      t ∈ plan.tiers ∧
      ids = t.issue_ids.filter (fun iid => !completed.contains iid) ∧
      ids ≠ [] ∧
      ∀ t' ∈ plan.tiers, t'.tier < t.tier →
        ∀ iid ∈ t'.issue_ids, iid ∈ completed) ∧
    (∀ ids, Scheduler.get_ready_issues plan completed = (ids, none) →
      ids = [] ∧ ∀ t' ∈ plan.tiers, ∀ iid ∈ t'.issue_ids, iid ∈ completed) :=
  getReadyLoop_spec completed plan.tiers hsorted

/-- Witness for C3: scenario S1's plan with `{T-1}` completed returns
`([T-2], tier 1)`. -/
theorem get_ready_first_incomplete_tier_witness :
    ({ tier := 1, issue_ids := ["T-1", "T-2"],
       description := "setup (project foundation)", sequential := true } :
      Scheduler.ExecutionTier) ∈
      (Scheduler.mkParallelPlan
        [{ tier := 1, issue_ids := ["T-1", "T-2"],
           description := "setup (project foundation)", sequential := true },
         { tier := 2, issue_ids := ["T-3"],
           description := "backend (API and data layer)" }] 2 "").tiers ∧
    ["T-2"] ≠ ([] : List String) :=
  have h := (get_ready_first_incomplete_tier
    (Scheduler.mkParallelPlan
      [{ tier := 1, issue_ids := ["T-1", "T-2"],
         description := "setup (project foundation)", sequential := true },
       { tier := 2, issue_ids := ["T-3"],
         description := "backend (API and data layer)" }] 2 "")
    ["T-1"] (by decide)).1 ["T-2"]
    { tier := 1, issue_ids := ["T-1", "T-2"],
      description := "setup (project foundation)", sequential := true }
    (by decide)
  ⟨h.1, h.2.2.1⟩

/-! ## C7 — waves bounded by max-parallelism -/

/-- The waves concatenate, in order, to the tier's issue list. -/
theorem wavesFrom_join (m : Nat) :
    ∀ (l : List String) (s : Nat),
      ((Parallel.wavesFrom m l s).map Prod.snd).flatten = l
  | [], _ => by
    simp [Parallel.wavesFrom]
  | x :: xs, s => by
    rw [Parallel.wavesFrom]
    simp only [List.map_cons, List.flatten_cons]
    rw [wavesFrom_join m (xs.drop (m - 1)) (s + m)]
    simp [List.take_append_drop]
termination_by l => l.length
decreasing_by simp only [List.length_drop, List.length_cons]; omega

/-- Every wave has at most `max_workers` issues. -/
theorem wavesFrom_size (m : Nat) (hm : 1 ≤ m) :
    ∀ (l : List String) (s : Nat),
      ∀ p ∈ Parallel.wavesFrom m l s, p.2.length ≤ m
  | [], _ => by
    simp [Parallel.wavesFrom]
  | x :: xs, s => by
    intro p hp
    rw [Parallel.wavesFrom] at hp
    rcases List.mem_cons.mp hp with h | h
    · subst h
      simp only [List.length_cons]
      have := List.length_take_le (m - 1) xs
      omega
    · exact wavesFrom_size m hm (xs.drop (m - 1)) (s + m) p h
termination_by l => l.length
decreasing_by simp only [List.length_drop, List.length_cons]; omega

/-- Every wave starts at or after the running offset, and the issue at
position `j` of a wave is the tier issue at global index
`wave_start - offset + j`: the worker index `wave_start + j` addresses
exactly the tier's issues in order. -/
theorem wavesFrom_index (m : Nat) (hm : 1 ≤ m) :
    ∀ (l : List String) (s : Nat),
      ∀ p ∈ Parallel.wavesFrom m l s,
        s ≤ p.1 ∧ ∀ j, j < p.2.length → l[p.1 - s + j]? = p.2[j]?
  | [], _ => by
    simp [Parallel.wavesFrom]
  | x :: xs, s => by
    intro p hp
    rw [Parallel.wavesFrom] at hp
    rcases List.mem_cons.mp hp with h | h
    · subst h
      refine ⟨le_refl s, ?_⟩
      intro j hj
      simp only [Nat.sub_self, Nat.zero_add]
      have hwave : (x :: xs.take (m - 1)) = (x :: xs).take m := by
        cases m with
        | zero => omega
        | succ m' => simp
      rw [hwave] at hj ⊢
      rw [List.getElem?_take_of_lt]
      exact lt_of_lt_of_le hj (List.length_take_le m (x :: xs))
    · obtain ⟨hs, hidx⟩ :=
        wavesFrom_index m hm (xs.drop (m - 1)) (s + m) p h
      refine ⟨le_trans (Nat.le_add_right s m) hs, ?_⟩
      intro j hj
      have hdrop : xs.drop (m - 1) = (x :: xs).drop m := by
        cases m with
        | zero => omega
        | succ m' => simp
      rw [hdrop] at hidx
      have h1 := hidx j hj
      rw [List.getElem?_drop] at h1
      have h2 : m + (p.1 - (s + m) + j) = p.1 - s + j := by omega
      rw [h2] at h1
      exact h1
termination_by l => l.length
decreasing_by simp only [List.length_drop, List.length_cons]; omega

/-- The `k`-th wave starts at worker index `offset + k * max_workers`. -/
theorem wavesFrom_starts (m : Nat) :
    ∀ (l : List String) (s : Nat) (k : Nat) (q : Nat × List String),
      (Parallel.wavesFrom m l s)[k]? = some q → q.1 = s + k * m
  | [], _, k, q => by
    simp [Parallel.wavesFrom]
  | x :: xs, s, k, q => by
    intro h
    rw [Parallel.wavesFrom] at h
    cases k with
    | zero =>
      simp only [List.getElem?_cons_zero, Option.some.injEq] at h
      rw [← h]
      simp
    | succ k' =>
      simp only [List.getElem?_cons_succ] at h
      have := wavesFrom_starts m (xs.drop (m - 1)) (s + m) k' q h
      rw [this]
      ring
termination_by l => l.length
decreasing_by simp only [List.length_drop, List.length_cons]; omega

/-- Every wave except possibly the last is full. -/
theorem wavesFrom_full (m : Nat) (hm : 1 ≤ m) :
    ∀ (l : List String) (s : Nat) (k : Nat) (q : Nat × List String),
      k + 1 < (Parallel.wavesFrom m l s).length →
      (Parallel.wavesFrom m l s)[k]? = some q → q.2.length = m
  | [], _, k, q => by
    simp [Parallel.wavesFrom]
  | x :: xs, s, k, q => by
    intro hlt h
    rw [Parallel.wavesFrom] at hlt h
    cases k with
    | zero =>
      simp only [List.getElem?_cons_zero, Option.some.injEq] at h
      simp only [List.length_cons] at hlt
      have hne : Parallel.wavesFrom m (xs.drop (m - 1)) (s + m) ≠ [] := by
        intro hnil
        rw [hnil] at hlt
        simp at hlt
      have hxs : xs.drop (m - 1) ≠ [] := by
        intro hnil
        apply hne
        rw [hnil, Parallel.wavesFrom]
      have hlen : m - 1 < xs.length := by
        by_contra hge
        exact hxs (List.drop_eq_nil_of_le (by omega))
      rw [← h]
      simp only [List.length_cons, List.length_take]
      omega
    | succ k' =>
      simp only [List.getElem?_cons_succ] at h
      simp only [List.length_cons] at hlt
      exact wavesFrom_full m hm (xs.drop (m - 1)) (s + m) k' q
        (by omega) h
termination_by l => l.length
decreasing_by simp only [List.length_drop, List.length_cons]; omega

/-- C7: for every tier issue list and `max_workers ≥ 1`, the coordinator's
wave loop partitions the list, in order, into consecutive waves of size at
most `max_workers`; the `k`-th wave starts at `k * max_workers`; every
wave but the last is full (so 5 issues at max-parallelism 2 give waves of
size 2, 2, 1); and the worker index `wave_start + position_in_wave` of an
issue addresses exactly its global position in the tier list, so no more
than `max_workers` workers are spawned in any wave. -/
theorem tier_waves_spec (tier_issues : List String) (max_workers : Nat)
    (hm : 1 ≤ max_workers) :
    (((Parallel.waves tier_issues max_workers).map Prod.snd).flatten
      = tier_issues) ∧
    (∀ p ∈ Parallel.waves tier_issues max_workers,
      p.2.length ≤ max_workers) ∧
    (∀ k q, (Parallel.waves tier_issues max_workers)[k]? = some q →
      q.1 = k * max_workers) ∧
    (∀ k q, k + 1 < (Parallel.waves tier_issues max_workers).length →
      (Parallel.waves tier_issues max_workers)[k]? = some q →
      q.2.length = max_workers) ∧
    (∀ p ∈ Parallel.waves tier_issues max_workers,
      ∀ j, j < p.2.length → tier_issues[p.1 + j]? = p.2[j]?) := by
  refine ⟨wavesFrom_join max_workers tier_issues 0, ?_, ?_, ?_, ?_⟩
  · exact wavesFrom_size max_workers hm tier_issues 0
  · intro k q h
    have := wavesFrom_starts max_workers tier_issues 0 k q h
    omega
  · exact wavesFrom_full max_workers hm tier_issues 0
  · intro p hp j hj
    have h := (wavesFrom_index max_workers hm tier_issues 0 p hp).2 j hj
    simpa using h

/-- Witness for C7: scenario S4 — five issues at max-parallelism 2 give
waves of size 2, 2, 1 with worker indices 0,1 then 2,3 then 4. -/
theorem tier_waves_spec_witness :
    (((Parallel.waves ["T-1", "T-2", "T-3", "T-4", "T-5"] 2).map
        Prod.snd).flatten = ["T-1", "T-2", "T-3", "T-4", "T-5"]) ∧
    Parallel.waves ["T-1", "T-2", "T-3", "T-4", "T-5"] 2
      = [(0, ["T-1", "T-2"]), (2, ["T-3", "T-4"]), (4, ["T-5"])] := by
  constructor
  · exact (tier_waves_spec ["T-1", "T-2", "T-3", "T-4", "T-5"] 2
      (by decide)).1
  · simp [Parallel.waves, Parallel.wavesFrom]

/-! ## C6 — merge phase and sequential retry -/

/-- Python `set.add` puts its argument in the set. -/
theorem mem_setInsert_self (s : List String) (x : String) :
    x ∈ LinearStatus.setInsert s x := by
  unfold LinearStatus.setInsert
  by_cases h : s.contains x
  · rw [if_pos h]
    exact List.mem_of_elem_eq_true h
  · rw [if_neg h]
    simp

/-- Python `set.add` keeps existing members. -/
theorem mem_setInsert_of_mem (s : List String) (x y : String)
    (h : x ∈ s) : x ∈ LinearStatus.setInsert s y := by
  unfold LinearStatus.setInsert
  by_cases hy : s.contains y
  · rw [if_pos hy]; exact h
  · rw [if_neg hy]; exact List.mem_append_left _ h

/-- Python `set.add` adds no identifier other than its argument. -/
theorem mem_of_mem_setInsert (s : List String) (x y : String)
    (h : x ∈ LinearStatus.setInsert s y) : x ∈ s ∨ x = y := by
  unfold LinearStatus.setInsert at h
  by_cases hy : s.contains y
  · rw [if_pos hy] at h; exact Or.inl h
  · rw [if_neg hy] at h
    rcases List.mem_append.mp h with h1 | h1
    · exact Or.inl h1
    · exact Or.inr (List.mem_singleton.mp h1)

/-- The merge phase only adds to the coordinator's sets and logs. -/
theorem mergePhase_mono (mergeRes : String → Merge.MergeResult) :
    ∀ (rs : List (String × Parallel.WResult)) (st : Parallel.CoordState),
      st.completed ⊆ (Parallel.mergePhase mergeRes rs st).completed ∧
      st.failed ⊆ (Parallel.mergePhase mergeRes rs st).failed ∧
      st.requeuedSet ⊆ (Parallel.mergePhase mergeRes rs st).requeuedSet ∧
      st.requeuedList ⊆ (Parallel.mergePhase mergeRes rs st).requeuedList ∧
      st.deletedBranches ⊆
        (Parallel.mergePhase mergeRes rs st).deletedBranches ∧
      st.mergeAttempts ⊆ (Parallel.mergePhase mergeRes rs st).mergeAttempts
  | [], st =>
    ⟨List.Subset.refl _, List.Subset.refl _, List.Subset.refl _,
      List.Subset.refl _, List.Subset.refl _, List.Subset.refl _⟩
  | (issue_id, result) :: rest, st => by
    by_cases hs : result.status == some "success"
    · by_cases hsucc : (mergeRes (Parallel.branchUsed issue_id result)).success
      · have heq : Parallel.mergePhase mergeRes ((issue_id, result) :: rest) st
            = Parallel.mergePhase mergeRes rest
              { st with
                mergeAttempts := st.mergeAttempts ++
                  [Parallel.branchUsed issue_id result]
                completed := LinearStatus.setInsert st.completed issue_id
                deletedBranches := st.deletedBranches ++
                  [Parallel.branchUsed issue_id result] } := by
          simp [Parallel.mergePhase, hs, hsucc]
        rw [heq]
        obtain ⟨h1, h2, h3, h4, h5, h6⟩ := mergePhase_mono mergeRes rest
          { st with
            mergeAttempts := st.mergeAttempts ++
              [Parallel.branchUsed issue_id result]
            completed := LinearStatus.setInsert st.completed issue_id
            deletedBranches := st.deletedBranches ++
              [Parallel.branchUsed issue_id result] }
        exact ⟨fun x hx => h1 (mem_setInsert_of_mem _ _ _ hx), h2, h3, h4,
          fun x hx => h5 (List.mem_append_left _ hx),
          fun x hx => h6 (List.mem_append_left _ hx)⟩
      · by_cases hconf :
            (mergeRes (Parallel.branchUsed issue_id result)).conflict
        · have heq : Parallel.mergePhase mergeRes
              ((issue_id, result) :: rest) st
              = Parallel.mergePhase mergeRes rest
                { st with
                  mergeAttempts := st.mergeAttempts ++
                    [Parallel.branchUsed issue_id result]
                  requeuedSet := LinearStatus.setInsert st.requeuedSet issue_id
                  requeuedList := st.requeuedList ++ [issue_id] } := by
            simp [Parallel.mergePhase, hs, hsucc, hconf]
          rw [heq]
          obtain ⟨h1, h2, h3, h4, h5, h6⟩ := mergePhase_mono mergeRes rest
            { st with
              mergeAttempts := st.mergeAttempts ++
                [Parallel.branchUsed issue_id result]
              requeuedSet := LinearStatus.setInsert st.requeuedSet issue_id
              requeuedList := st.requeuedList ++ [issue_id] }
          exact ⟨h1, h2, fun x hx => h3 (mem_setInsert_of_mem _ _ _ hx),
            fun x hx => h4 (List.mem_append_left _ hx), h5,
            fun x hx => h6 (List.mem_append_left _ hx)⟩
        · have heq : Parallel.mergePhase mergeRes
              ((issue_id, result) :: rest) st
              = Parallel.mergePhase mergeRes rest
                { st with
                  mergeAttempts := st.mergeAttempts ++
                    [Parallel.branchUsed issue_id result]
                  failed := LinearStatus.setInsert st.failed issue_id } := by
            simp [Parallel.mergePhase, hs, hsucc, hconf]
          rw [heq]
          obtain ⟨h1, h2, h3, h4, h5, h6⟩ := mergePhase_mono mergeRes rest
            { st with
              mergeAttempts := st.mergeAttempts ++
                [Parallel.branchUsed issue_id result]
              failed := LinearStatus.setInsert st.failed issue_id }
          exact ⟨h1, fun x hx => h2 (mem_setInsert_of_mem _ _ _ hx), h3, h4,
            h5, fun x hx => h6 (List.mem_append_left _ hx)⟩
    · have heq : Parallel.mergePhase mergeRes ((issue_id, result) :: rest) st
          = Parallel.mergePhase mergeRes rest
            { st with failed := LinearStatus.setInsert st.failed issue_id } := by
        simp [Parallel.mergePhase, hs]
      rw [heq]
      obtain ⟨h1, h2, h3, h4, h5, h6⟩ := mergePhase_mono mergeRes rest
        { st with failed := LinearStatus.setInsert st.failed issue_id }
      exact ⟨h1, fun x hx => h2 (mem_setInsert_of_mem _ _ _ hx), h3, h4, h5,
        h6⟩

/-- Per-issue outcome of the merge phase. -/
theorem mergePhase_mem (mergeRes : String → Merge.MergeResult) :
    ∀ (rs : List (String × Parallel.WResult)) (st : Parallel.CoordState),
      ∀ p ∈ rs,
      (p.2.status = some "success" →
        ((mergeRes (Parallel.branchUsed p.1 p.2)).success = true →
          p.1 ∈ (Parallel.mergePhase mergeRes rs st).completed ∧
          Parallel.branchUsed p.1 p.2 ∈
            (Parallel.mergePhase mergeRes rs st).deletedBranches) ∧
        ((mergeRes (Parallel.branchUsed p.1 p.2)).success = false →
          (mergeRes (Parallel.branchUsed p.1 p.2)).conflict = true →
          p.1 ∈ (Parallel.mergePhase mergeRes rs st).requeuedSet ∧
          p.1 ∈ (Parallel.mergePhase mergeRes rs st).requeuedList) ∧
        ((mergeRes (Parallel.branchUsed p.1 p.2)).success = false →
          (mergeRes (Parallel.branchUsed p.1 p.2)).conflict = false →
          p.1 ∈ (Parallel.mergePhase mergeRes rs st).failed)) ∧
      (p.2.status ≠ some "success" →
        p.1 ∈ (Parallel.mergePhase mergeRes rs st).failed)
  | [], st => by simp
  | (issue_id, result) :: rest, st => by
    intro p hp
    rcases List.mem_cons.mp hp with hphead | hptail
    · subst hphead
      constructor
      · intro hstat
        have hstat' : result.status = some "success" := hstat
        have hs : result.status == some "success" := by
          simp [hstat']
        refine ⟨?_, ?_, ?_⟩
        · intro hsucc
          have heq : Parallel.mergePhase mergeRes
              ((issue_id, result) :: rest) st
              = Parallel.mergePhase mergeRes rest
                { st with
                  mergeAttempts := st.mergeAttempts ++
                    [Parallel.branchUsed issue_id result]
                  completed := LinearStatus.setInsert st.completed issue_id
                  deletedBranches := st.deletedBranches ++
                    [Parallel.branchUsed issue_id result] } := by
            simp [Parallel.mergePhase, hs, hsucc]
          rw [heq]
          obtain ⟨h1, _, _, _, h5, _⟩ := mergePhase_mono mergeRes rest
            { st with
              mergeAttempts := st.mergeAttempts ++
                [Parallel.branchUsed issue_id result]
              completed := LinearStatus.setInsert st.completed issue_id
              deletedBranches := st.deletedBranches ++
                [Parallel.branchUsed issue_id result] }
          exact ⟨h1 (mem_setInsert_self _ _),
            h5 (List.mem_append_right _ (List.mem_singleton_self _))⟩
        · intro hsucc hconf
          have heq : Parallel.mergePhase mergeRes
              ((issue_id, result) :: rest) st
              = Parallel.mergePhase mergeRes rest
                { st with
                  mergeAttempts := st.mergeAttempts ++
                    [Parallel.branchUsed issue_id result]
                  requeuedSet := LinearStatus.setInsert st.requeuedSet issue_id
                  requeuedList := st.requeuedList ++ [issue_id] } := by
            simp [Parallel.mergePhase, hs, hsucc, hconf]
          rw [heq]
          obtain ⟨_, _, h3, h4, _, _⟩ := mergePhase_mono mergeRes rest
            { st with
              mergeAttempts := st.mergeAttempts ++
                [Parallel.branchUsed issue_id result]
              requeuedSet := LinearStatus.setInsert st.requeuedSet issue_id
              requeuedList := st.requeuedList ++ [issue_id] }
          exact ⟨h3 (mem_setInsert_self _ _),
            h4 (List.mem_append_right _ (List.mem_singleton_self _))⟩
        · intro hsucc hconf
          have heq : Parallel.mergePhase mergeRes
              ((issue_id, result) :: rest) st
              = Parallel.mergePhase mergeRes rest
                { st with
                  mergeAttempts := st.mergeAttempts ++
                    [Parallel.branchUsed issue_id result]
                  failed := LinearStatus.setInsert st.failed issue_id } := by
            simp [Parallel.mergePhase, hs, hsucc, hconf]
          rw [heq]
          obtain ⟨_, h2, _, _, _, _⟩ := mergePhase_mono mergeRes rest
            { st with
              mergeAttempts := st.mergeAttempts ++
                [Parallel.branchUsed issue_id result]
              failed := LinearStatus.setInsert st.failed issue_id }
          exact h2 (mem_setInsert_self _ _)
      · intro hstat
        have hstat' : result.status ≠ some "success" := hstat
        have hs : ¬(result.status == some "success") := by
          simp [hstat']
        have heq : Parallel.mergePhase mergeRes
            ((issue_id, result) :: rest) st
            = Parallel.mergePhase mergeRes rest
              { st with failed := LinearStatus.setInsert st.failed issue_id } := by
          simp [Parallel.mergePhase, hs]
        rw [heq]
        obtain ⟨_, h2, _, _, _, _⟩ := mergePhase_mono mergeRes rest
          { st with failed := LinearStatus.setInsert st.failed issue_id }
        exact h2 (mem_setInsert_self _ _)
    · by_cases hs : result.status == some "success"
      · by_cases hsucc :
            (mergeRes (Parallel.branchUsed issue_id result)).success
        · have heq : Parallel.mergePhase mergeRes
              ((issue_id, result) :: rest) st
              = Parallel.mergePhase mergeRes rest
                { st with
                  mergeAttempts := st.mergeAttempts ++
                    [Parallel.branchUsed issue_id result]
                  completed := LinearStatus.setInsert st.completed issue_id
                  deletedBranches := st.deletedBranches ++
                    [Parallel.branchUsed issue_id result] } := by
            simp [Parallel.mergePhase, hs, hsucc]
          rw [heq]
          exact mergePhase_mem mergeRes rest _ p hptail
        · by_cases hconf :
              (mergeRes (Parallel.branchUsed issue_id result)).conflict
          · have heq : Parallel.mergePhase mergeRes
                ((issue_id, result) :: rest) st
                = Parallel.mergePhase mergeRes rest
                  { st with
                    mergeAttempts := st.mergeAttempts ++
                      [Parallel.branchUsed issue_id result]
                    requeuedSet :=
                      LinearStatus.setInsert st.requeuedSet issue_id
                    requeuedList := st.requeuedList ++ [issue_id] } := by
              simp [Parallel.mergePhase, hs, hsucc, hconf]
            rw [heq]
            exact mergePhase_mem mergeRes rest _ p hptail
          · have heq : Parallel.mergePhase mergeRes
                ((issue_id, result) :: rest) st
                = Parallel.mergePhase mergeRes rest
                  { st with
                    mergeAttempts := st.mergeAttempts ++
                      [Parallel.branchUsed issue_id result]
                    failed := LinearStatus.setInsert st.failed issue_id } := by
              simp [Parallel.mergePhase, hs, hsucc, hconf]
            rw [heq]
            exact mergePhase_mem mergeRes rest _ p hptail
      · have heq : Parallel.mergePhase mergeRes ((issue_id, result) :: rest) st
            = Parallel.mergePhase mergeRes rest
              { st with failed := LinearStatus.setInsert st.failed issue_id } := by
          simp [Parallel.mergePhase, hs]
        rw [heq]
        exact mergePhase_mem mergeRes rest _ p hptail

/-- The merge phase attempts exactly one merge per success-status issue,
in order — and none for the others. -/
theorem mergePhase_attempts (mergeRes : String → Merge.MergeResult) :
    ∀ (rs : List (String × Parallel.WResult)) (st : Parallel.CoordState),
      (Parallel.mergePhase mergeRes rs st).mergeAttempts
        = st.mergeAttempts ++
          (rs.filter fun p => p.2.status == some "success").map
            (fun p => Parallel.branchUsed p.1 p.2)
  | [], st => by simp [Parallel.mergePhase]
  | (issue_id, result) :: rest, st => by
    by_cases hs : result.status == some "success"
    · by_cases hsucc : (mergeRes (Parallel.branchUsed issue_id result)).success
      · have heq : Parallel.mergePhase mergeRes ((issue_id, result) :: rest) st
            = Parallel.mergePhase mergeRes rest
              { st with
                mergeAttempts := st.mergeAttempts ++
                  [Parallel.branchUsed issue_id result]
                completed := LinearStatus.setInsert st.completed issue_id
                deletedBranches := st.deletedBranches ++
                  [Parallel.branchUsed issue_id result] } := by
          simp [Parallel.mergePhase, hs, hsucc]
        rw [heq, mergePhase_attempts mergeRes rest]
        simp [hs]
      · by_cases hconf :
            (mergeRes (Parallel.branchUsed issue_id result)).conflict
        · have heq : Parallel.mergePhase mergeRes
              ((issue_id, result) :: rest) st
              = Parallel.mergePhase mergeRes rest
                { st with
                  mergeAttempts := st.mergeAttempts ++
                    [Parallel.branchUsed issue_id result]
                  requeuedSet := LinearStatus.setInsert st.requeuedSet issue_id
                  requeuedList := st.requeuedList ++ [issue_id] } := by
            simp [Parallel.mergePhase, hs, hsucc, hconf]
          rw [heq, mergePhase_attempts mergeRes rest]
          simp [hs]
        · have heq : Parallel.mergePhase mergeRes
              ((issue_id, result) :: rest) st
              = Parallel.mergePhase mergeRes rest
                { st with
                  mergeAttempts := st.mergeAttempts ++
                    [Parallel.branchUsed issue_id result]
                  failed := LinearStatus.setInsert st.failed issue_id } := by
            simp [Parallel.mergePhase, hs, hsucc, hconf]
          rw [heq, mergePhase_attempts mergeRes rest]
          simp [hs]
    · have heq : Parallel.mergePhase mergeRes ((issue_id, result) :: rest) st
          = Parallel.mergePhase mergeRes rest
            { st with failed := LinearStatus.setInsert st.failed issue_id } := by
        simp [Parallel.mergePhase, hs]
      rw [heq, mergePhase_attempts mergeRes rest]
      simp [hs]

/-- The retry pass only adds to the completed set. -/
theorem retryPass_completed_mono (retryResult : String → Option Parallel.WResult)
    (retryMerge : String → Merge.MergeResult) :
    ∀ (l : List String) (st : Parallel.CoordState),
      st.completed ⊆
        (Parallel.retryPass retryResult retryMerge l st).completed
  | [], st => List.Subset.refl _
  | issue_id :: rest, st => by
    by_cases hs : ((retryResult issue_id).getD {}).status == some "success"
    · by_cases hsucc :
          (retryMerge
            (Parallel.branchUsed issue_id ((retryResult issue_id).getD {}))).success
      · have heq : Parallel.retryPass retryResult retryMerge
            (issue_id :: rest) st
            = Parallel.retryPass retryResult retryMerge rest
              { st with
                mergeAttempts := st.mergeAttempts ++
                  [Parallel.branchUsed issue_id
                    ((retryResult issue_id).getD {})]
                completed := LinearStatus.setInsert st.completed issue_id
                requeuedSet := st.requeuedSet.filter fun x => x ≠ issue_id
                deletedBranches := st.deletedBranches ++
                  [Parallel.branchUsed issue_id
                    ((retryResult issue_id).getD {})] } := by
          simp [Parallel.retryPass, hs, hsucc]
        rw [heq]
        exact fun x hx =>
          retryPass_completed_mono retryResult retryMerge rest _
            (mem_setInsert_of_mem _ _ _ hx)
      · have heq : Parallel.retryPass retryResult retryMerge
            (issue_id :: rest) st
            = Parallel.retryPass retryResult retryMerge rest
              { st with
                mergeAttempts := st.mergeAttempts ++
                  [Parallel.branchUsed issue_id
                    ((retryResult issue_id).getD {})] } := by
          simp [Parallel.retryPass, hs, hsucc]
        rw [heq]
        exact retryPass_completed_mono retryResult retryMerge rest
          { st with
            mergeAttempts := st.mergeAttempts ++
              [Parallel.branchUsed issue_id
                ((retryResult issue_id).getD {})] }
    · have heq : Parallel.retryPass retryResult retryMerge
          (issue_id :: rest) st
          = Parallel.retryPass retryResult retryMerge rest st := by
        simp [Parallel.retryPass, hs]
      rw [heq]
      exact retryPass_completed_mono retryResult retryMerge rest st

/-- The retry pass never adds an identifier to the re-queued set. -/
theorem retryPass_requeued_no_new
    (retryResult : String → Option Parallel.WResult)
    (retryMerge : String → Merge.MergeResult) :
    ∀ (l : List String) (st : Parallel.CoordState) (x : String),
      x ∉ st.requeuedSet →
      x ∉ (Parallel.retryPass retryResult retryMerge l st).requeuedSet
  | [], st, x => fun h => h
  | issue_id :: rest, st, x => by
    intro hx
    by_cases hs : ((retryResult issue_id).getD {}).status == some "success"
    · by_cases hsucc :
          (retryMerge
            (Parallel.branchUsed issue_id ((retryResult issue_id).getD {}))).success
      · have heq : Parallel.retryPass retryResult retryMerge
            (issue_id :: rest) st
            = Parallel.retryPass retryResult retryMerge rest
              { st with
                mergeAttempts := st.mergeAttempts ++
                  [Parallel.branchUsed issue_id
                    ((retryResult issue_id).getD {})]
                completed := LinearStatus.setInsert st.completed issue_id
                requeuedSet := st.requeuedSet.filter fun x => x ≠ issue_id
                deletedBranches := st.deletedBranches ++
                  [Parallel.branchUsed issue_id
                    ((retryResult issue_id).getD {})] } := by
          simp [Parallel.retryPass, hs, hsucc]
        rw [heq]
        refine retryPass_requeued_no_new retryResult retryMerge rest _ x ?_
        intro hmem
        exact hx (List.mem_of_mem_filter hmem)
      · have heq : Parallel.retryPass retryResult retryMerge
            (issue_id :: rest) st
            = Parallel.retryPass retryResult retryMerge rest
              { st with
                mergeAttempts := st.mergeAttempts ++
                  [Parallel.branchUsed issue_id
                    ((retryResult issue_id).getD {})] } := by
          simp [Parallel.retryPass, hs, hsucc]
        rw [heq]
        exact retryPass_requeued_no_new retryResult retryMerge rest _ x hx
    · have heq : Parallel.retryPass retryResult retryMerge
          (issue_id :: rest) st
          = Parallel.retryPass retryResult retryMerge rest st := by
        simp [Parallel.retryPass, hs]
      rw [heq]
      exact retryPass_requeued_no_new retryResult retryMerge rest st x hx

/-- Per-issue outcome of the retry pass: a re-queued issue whose retry
worker reports success and whose second merge succeeds ends up completed
and out of the re-queued set. -/
theorem retryPass_mem (retryResult : String → Option Parallel.WResult)
    (retryMerge : String → Merge.MergeResult) :
    ∀ (l : List String) (st : Parallel.CoordState) (issue_id : String),
      issue_id ∈ l →
      ∀ r, retryResult issue_id = some r →
        r.status = some "success" →
        (retryMerge (Parallel.branchUsed issue_id r)).success = true →
        issue_id ∈
          (Parallel.retryPass retryResult retryMerge l st).completed ∧
        issue_id ∉
          (Parallel.retryPass retryResult retryMerge l st).requeuedSet
  | [], st, issue_id => by simp
  | head :: rest, st, issue_id => by
    intro hmem r hr hstat hsucc
    by_cases hhead : head = issue_id
    · subst hhead
      have hres : (retryResult head).getD {} = r := by rw [hr]; rfl
      have hs : ((retryResult head).getD {}).status == some "success" := by
        rw [hres]; simp [hstat]
      have hsucc' :
          (retryMerge
            (Parallel.branchUsed head ((retryResult head).getD {}))).success := by
        rw [hres]; exact hsucc
      have heq : Parallel.retryPass retryResult retryMerge (head :: rest) st
          = Parallel.retryPass retryResult retryMerge rest
            { st with
              mergeAttempts := st.mergeAttempts ++
                [Parallel.branchUsed head ((retryResult head).getD {})]
              completed := LinearStatus.setInsert st.completed head
              requeuedSet := st.requeuedSet.filter fun x => x ≠ head
              deletedBranches := st.deletedBranches ++
                [Parallel.branchUsed head ((retryResult head).getD {})] } := by
        simp [Parallel.retryPass, hs, hsucc']
      rw [heq]
      constructor
      · exact retryPass_completed_mono retryResult retryMerge rest _
          (mem_setInsert_self _ _)
      · refine retryPass_requeued_no_new retryResult retryMerge rest _ head ?_
        intro hmem'
        have := (List.mem_filter.mp hmem').2
        simp at this
    · have hmem' : issue_id ∈ rest := by
        rcases List.mem_cons.mp hmem with h | h
        · exact absurd h.symm hhead
        · exact h
      by_cases hs : ((retryResult head).getD {}).status == some "success"
      · by_cases hsucc' :
            (retryMerge
              (Parallel.branchUsed head ((retryResult head).getD {}))).success
        · have heq : Parallel.retryPass retryResult retryMerge
              (head :: rest) st
              = Parallel.retryPass retryResult retryMerge rest
                { st with
                  mergeAttempts := st.mergeAttempts ++
                    [Parallel.branchUsed head ((retryResult head).getD {})]
                  completed := LinearStatus.setInsert st.completed head
                  requeuedSet := st.requeuedSet.filter fun x => x ≠ head
                  deletedBranches := st.deletedBranches ++
                    [Parallel.branchUsed head ((retryResult head).getD {})] } := by
            simp [Parallel.retryPass, hs, hsucc']
          rw [heq]
          exact retryPass_mem retryResult retryMerge rest _ issue_id hmem' r
            hr hstat hsucc
        · have heq : Parallel.retryPass retryResult retryMerge
              (head :: rest) st
              = Parallel.retryPass retryResult retryMerge rest
                { st with
                  mergeAttempts := st.mergeAttempts ++
                    [Parallel.branchUsed head ((retryResult head).getD {})] } := by
            simp [Parallel.retryPass, hs, hsucc']
          rw [heq]
          exact retryPass_mem retryResult retryMerge rest _ issue_id hmem' r
            hr hstat hsucc
      · have heq : Parallel.retryPass retryResult retryMerge (head :: rest) st
            = Parallel.retryPass retryResult retryMerge rest st := by
          simp [Parallel.retryPass, hs]
        rw [heq]
        exact retryPass_mem retryResult retryMerge rest st issue_id hmem' r
          hr hstat hsucc

/-- C6: in the coordinator's merge phase, for each issue of the wave —
if the worker reported success the branch is merged: on merge success the
issue is added to completed and its branch deleted; on merge conflict it
is added to the re-queued set and remembered for the sequential retry
pass; on any other merge failure it is added to failed; if the worker did
not report success it is added to failed and its branch is never merged
(the merge log covers exactly the success-status issues).  In the retry
pass, a re-queued issue whose retry worker succeeds and whose second
merge succeeds is added to completed and removed from the re-queued set. -/
theorem merge_phase_and_retry
    (mergeRes : String → Merge.MergeResult)
    (retryResult : String → Option Parallel.WResult)
    (retryMerge : String → Merge.MergeResult)
    (results : List (String × Parallel.WResult))
    (st0 : Parallel.CoordState) :
    (∀ p ∈ results,
      (p.2.status = some "success" →
        ((mergeRes (Parallel.branchUsed p.1 p.2)).success = true →
          p.1 ∈ (Parallel.mergePhase mergeRes results st0).completed ∧
          Parallel.branchUsed p.1 p.2 ∈
            (Parallel.mergePhase mergeRes results st0).deletedBranches) ∧
        ((mergeRes (Parallel.branchUsed p.1 p.2)).success = false →
          (mergeRes (Parallel.branchUsed p.1 p.2)).conflict = true →
          p.1 ∈ (Parallel.mergePhase mergeRes results st0).requeuedSet ∧
          p.1 ∈ (Parallel.mergePhase mergeRes results st0).requeuedList) ∧
        ((mergeRes (Parallel.branchUsed p.1 p.2)).success = false →
          (mergeRes (Parallel.branchUsed p.1 p.2)).conflict = false →
          p.1 ∈ (Parallel.mergePhase mergeRes results st0).failed)) ∧
      (p.2.status ≠ some "success" →
        p.1 ∈ (Parallel.mergePhase mergeRes results st0).failed)) ∧
    ((Parallel.mergePhase mergeRes results st0).mergeAttempts
      = st0.mergeAttempts ++
        (results.filter fun p => p.2.status == some "success").map
          (fun p => Parallel.branchUsed p.1 p.2)) ∧
    (∀ issue_id ∈ (Parallel.mergePhase mergeRes results st0).requeuedList,
      ∀ r, retryResult issue_id = some r → r.status = some "success" →
        (retryMerge (Parallel.branchUsed issue_id r)).success = true →
        issue_id ∈
          (Parallel.retryPass retryResult retryMerge
            (Parallel.mergePhase mergeRes results st0).requeuedList
            (Parallel.mergePhase mergeRes results st0)).completed ∧
        issue_id ∉
          (Parallel.retryPass retryResult retryMerge
            (Parallel.mergePhase mergeRes results st0).requeuedList
            (Parallel.mergePhase mergeRes results st0)).requeuedSet) :=
  ⟨mergePhase_mem mergeRes results st0,
   mergePhase_attempts mergeRes results st0,
   fun issue_id hm r hr h1 h2 =>
     retryPass_mem retryResult retryMerge _ _ issue_id hm r hr h1 h2⟩

/-- Witness for C6: scenario S3 — a wave where T-1 merges, T-2 conflicts
and is re-queued, T-3 fails to merge, T-4's worker failed; the retry pass
then completes T-2 and removes it from the re-queued set. -/
theorem merge_phase_and_retry_witness :
    "T-1" ∈ (Parallel.mergePhase exMergeRes exResults {}).completed ∧
    "T-2" ∈ (Parallel.mergePhase exMergeRes exResults {}).requeuedList ∧
    "T-3" ∈ (Parallel.mergePhase exMergeRes exResults {}).failed ∧
    "T-4" ∈ (Parallel.mergePhase exMergeRes exResults {}).failed ∧
    "T-2" ∈ (Parallel.retryPass exRetryResult exRetryMerge
      (Parallel.mergePhase exMergeRes exResults {}).requeuedList
      (Parallel.mergePhase exMergeRes exResults {})).completed ∧
    "T-2" ∉ (Parallel.retryPass exRetryResult exRetryMerge
      (Parallel.mergePhase exMergeRes exResults {}).requeuedList
      (Parallel.mergePhase exMergeRes exResults {})).requeuedSet := by
  have h := merge_phase_and_retry exMergeRes exRetryResult exRetryMerge
    exResults {}
  have h1 := (h.1 ("T-1", { status := some "success" }) (by decide)).1
    rfl |>.1 (by decide)
  have h2 := (h.1 ("T-2", { status := some "success" }) (by decide)).1
    rfl |>.2.1 (by decide) (by decide)
  have h3 := (h.1 ("T-3", { status := some "success" }) (by decide)).1
    rfl |>.2.2 (by decide) (by decide)
  have h4 := (h.1 ("T-4", { status := some "error" }) (by decide)).2
    (by decide)
  have h5 := h.2.2 "T-2" h2.2 { status := some "success" } rfl rfl (by decide)
  exact ⟨h1.1, h2.2, h3, h4, h5.1, h5.2⟩

/-! ## C2 — build_plan tier structure -/

/-- Membership in a tier's identifier group characterizes the issue's
mapped tier (for duplicate-free identifier lists). -/
theorem mem_tierGroup_iff (issues : List Scheduler.Issue)
    (hnd : (issues.map Scheduler.Issue.id).Nodup)
    (issue : Scheduler.Issue) (hmem : issue ∈ issues) (n : Nat) :
    issue.id ∈ Scheduler.tierGroup issues n ↔
      n = Scheduler.tierOf issue.category := by
  unfold Scheduler.tierGroup
  constructor
  · intro h
    obtain ⟨issue', h1, h2⟩ := List.mem_map.mp h
    have h3 := List.mem_filter.mp h1
    have h4 : issue' = issue := List.inj_on_of_nodup_map hnd h3.1 hmem h2
    subst h4
    have h5 := h3.2
    simp at h5
    omega
  · intro h
    subst h
    refine List.mem_map.mpr ⟨issue, List.mem_filter.mpr ⟨hmem, ?_⟩, rfl⟩
    simp

/-- A tier number appears in the plan exactly when some issue maps to it. -/
theorem mem_planTierNums (issues : List Scheduler.Issue) (n : Nat) :
    n ∈ Scheduler.planTierNums issues ↔
      ∃ issue ∈ issues, Scheduler.tierOf issue.category = n := by
  unfold Scheduler.planTierNums
  rw [(List.perm_insertionSort (· ≤ ·) _).mem_iff, List.mem_dedup,
    List.mem_map]

/-- The plan's tier numbers are duplicate-free. -/
theorem planTierNums_nodup (issues : List Scheduler.Issue) :
    (Scheduler.planTierNums issues).Nodup :=
  (List.perm_insertionSort (· ≤ ·) _).nodup_iff.mpr (List.nodup_dedup _)

/-- The plan's tier numbers are strictly ascending. -/
theorem planTierNums_sorted (issues : List Scheduler.Issue) :
    (Scheduler.planTierNums issues).Pairwise (· < ·) := by
  have h1 : (Scheduler.planTierNums issues).Pairwise (· ≤ ·) :=
    List.sorted_insertionSort (· ≤ ·) _
  have h2 := planTierNums_nodup issues
  exact (List.Pairwise.and h1 h2).imp fun h => lt_of_le_of_ne h.1 h.2

/-- The tier list of `build_plan`, unfolded. -/
theorem build_plan_tiers_eq (issues : List Scheduler.Issue)
    (max_parallelism : Nat) :
    (Scheduler.build_plan issues max_parallelism).tiers
      = (Scheduler.planTierNums issues).map fun tier_num =>
        { tier := tier_num
          issue_ids := Scheduler.tierGroup issues tier_num
          description :=
            (Scheduler.TIER_DESCRIPTIONS tier_num).getD ("tier " ++ toString tier_num)
          sequential := Scheduler.SEQUENTIAL_TIERS.contains tier_num } := rfl

/-- A category not in the table maps to no tier entry. -/
theorem CATEGORY_TIERS_eq_none (c : String)
    (h : c ∉ ["setup", "backend", "frontend", "a2ui-catalog", "feature",
      "styling", "testing", "integration"]) :
    Scheduler.CATEGORY_TIERS c = none := by
  simp at h
  obtain ⟨h1, h2, h3, h4, h5, h6, h7, h8⟩ := h
  simp [Scheduler.CATEGORY_TIERS, h1, h2, h3, h4, h5, h6, h7, h8]

/-- C2: for any issue list with pairwise-distinct identifiers,
`build_plan` produces tiers whose indices are strictly ascending; every
input identifier appears in exactly one tier and tiers contain only input
identifiers; every issue lands in its mapped tier per the category table
(setup→1, backend→2, frontend/a2ui-catalog→3, feature→4, styling→5,
testing→6, integration→7, anything else→4); and a tier is marked
sequential exactly when its index is 1 or 7. -/
theorem build_plan_spec (issues : List Scheduler.Issue)
    (max_parallelism : Nat)
    (hnd : (issues.map Scheduler.Issue.id).Nodup) :
    (((Scheduler.build_plan issues max_parallelism).tiers.map
        Scheduler.ExecutionTier.tier).Pairwise (· < ·)) ∧
    (∀ issue ∈ issues,
      ((Scheduler.build_plan issues max_parallelism).tiers.countP
        fun t => decide (issue.id ∈ t.issue_ids)) = 1) ∧
    (∀ t ∈ (Scheduler.build_plan issues max_parallelism).tiers,
      ∀ iid ∈ t.issue_ids, iid ∈ issues.map Scheduler.Issue.id) ∧
    (∀ issue ∈ issues,
      ∀ t ∈ (Scheduler.build_plan issues max_parallelism).tiers,
      issue.id ∈ t.issue_ids →
      (t.tier = Scheduler.tierOf issue.category ∧
       (strLower issue.category = "setup" → t.tier = 1) ∧
       (strLower issue.category = "backend" → t.tier = 2) ∧
       (strLower issue.category = "frontend" → t.tier = 3) ∧
       (strLower issue.category = "a2ui-catalog" → t.tier = 3) ∧
       (strLower issue.category = "feature" → t.tier = 4) ∧
       (strLower issue.category = "styling" → t.tier = 5) ∧
       (strLower issue.category = "testing" → t.tier = 6) ∧
       (strLower issue.category = "integration" → t.tier = 7) ∧
       (strLower issue.category ∉ ["setup", "backend", "frontend",
          "a2ui-catalog", "feature", "styling", "testing", "integration"] →
         t.tier = 4))) ∧
    (∀ t ∈ (Scheduler.build_plan issues max_parallelism).tiers,
      (t.sequential = true ↔ (t.tier = 1 ∨ t.tier = 7))) := by
  refine ⟨?_, ?_, ?_, ?_, ?_⟩
  · rw [build_plan_tiers_eq, List.pairwise_map, List.pairwise_map]
    exact planTierNums_sorted issues
  · intro issue hmem
    rw [build_plan_tiers_eq, List.countP_map]
    have h1 : ∀ n ∈ Scheduler.planTierNums issues,
        ((fun t : Scheduler.ExecutionTier =>
            decide (issue.id ∈ t.issue_ids)) ∘
          (fun tier_num =>
            { tier := tier_num,
              issue_ids := Scheduler.tierGroup issues tier_num,
              description :=
                (Scheduler.TIER_DESCRIPTIONS tier_num).getD
                  ("tier " ++ toString tier_num),
              sequential :=
                Scheduler.SEQUENTIAL_TIERS.contains tier_num })) n = true ↔
        (n == Scheduler.tierOf issue.category) = true := by
      intro n hn
      simp only [Function.comp_apply, decide_eq_true_eq, beq_iff_eq]
      exact mem_tierGroup_iff issues hnd issue hmem n
    rw [List.countP_congr h1]
    have h2 : (Scheduler.planTierNums issues).countP
        (· == Scheduler.tierOf issue.category)
        = (Scheduler.planTierNums issues).count
          (Scheduler.tierOf issue.category) := by
      simp [List.count]
    rw [h2]
    exact List.count_eq_one_of_mem (planTierNums_nodup issues)
      ((mem_planTierNums issues _).mpr ⟨issue, hmem, rfl⟩)
  · intro t ht iid hiid
    rw [build_plan_tiers_eq] at ht
    obtain ⟨n, hn, rfl⟩ := List.mem_map.mp ht
    obtain ⟨issue', h1, h2⟩ := List.mem_map.mp hiid
    exact h2 ▸ List.mem_map.mpr ⟨issue', (List.mem_filter.mp h1).1, rfl⟩
  · intro issue hmem t ht hiid
    rw [build_plan_tiers_eq] at ht
    obtain ⟨n, hn, rfl⟩ := List.mem_map.mp ht
    have hn2 : n = Scheduler.tierOf issue.category :=
      (mem_tierGroup_iff issues hnd issue hmem n).mp hiid
    subst hn2
    refine ⟨rfl, ?_, ?_, ?_, ?_, ?_, ?_, ?_, ?_, ?_⟩
    · intro hcat
      simp [Scheduler.tierOf, hcat, Scheduler.CATEGORY_TIERS]
    · intro hcat
      simp [Scheduler.tierOf, hcat, Scheduler.CATEGORY_TIERS]
    · intro hcat
      simp [Scheduler.tierOf, hcat, Scheduler.CATEGORY_TIERS]
    · intro hcat
      simp [Scheduler.tierOf, hcat, Scheduler.CATEGORY_TIERS]
    · intro hcat
      simp [Scheduler.tierOf, hcat, Scheduler.CATEGORY_TIERS]
    · intro hcat
      simp [Scheduler.tierOf, hcat, Scheduler.CATEGORY_TIERS]
    · intro hcat
      simp [Scheduler.tierOf, hcat, Scheduler.CATEGORY_TIERS]
    · intro hcat
      simp [Scheduler.tierOf, hcat, Scheduler.CATEGORY_TIERS]
    · intro hcat
      show Scheduler.tierOf issue.category = 4
      rw [Scheduler.tierOf, CATEGORY_TIERS_eq_none _ hcat]
      rfl
  · intro t ht
    rw [build_plan_tiers_eq] at ht
    obtain ⟨n, hn, rfl⟩ := List.mem_map.mp ht
    show Scheduler.SEQUENTIAL_TIERS.contains n = true ↔ (n = 1 ∨ n = 7)
    rw [List.elem_iff]
    simp [Scheduler.SEQUENTIAL_TIERS]

/-- Witness for C2 at scenario S1's issue list (with one unrecognized
category): T-3 sits in exactly one tier and the tier indices ascend. -/
theorem build_plan_spec_witness :
    ((Scheduler.build_plan exIssues 2).tiers.countP
      fun t => decide ("T-3" ∈ t.issue_ids)) = 1 ∧
    (((Scheduler.build_plan exIssues 2).tiers.map
      Scheduler.ExecutionTier.tier).Pairwise (· < ·)) := by
  have h := build_plan_spec exIssues 2 (by decide)
  exact ⟨h.2.1 { id := "T-3", category := "backend" } (by decide), h.1⟩

/-! ## C5 — tracker status check fails open -/

/-- Python `set.add` of a fresh identifier appends it. -/
theorem setInsert_append (s : List String) (x : String) (h : x ∉ s) :
    LinearStatus.setInsert s x = s ++ [x] := by
  unfold LinearStatus.setInsert
  rw [if_neg]
  intro hc
  exact h (List.mem_of_elem_eq_true hc)

/-- Dict assignment with a fresh key appends the pair. -/
theorem dictInsert_append (m : List (String × LinearStatus.IssueStatus))
    (k : String) (v : LinearStatus.IssueStatus)
    (h : ∀ p ∈ m, p.1 ≠ k) :
    LinearStatus.dictInsert m k v = m ++ [(k, v)] := by
  unfold LinearStatus.dictInsert
  rw [if_neg]
  intro hc
  obtain ⟨p, hp, hpk⟩ := List.any_eq_true.mp hc
  exact h p hp (by simpa using hpk)

/-- The check loop over a duplicate-free, fresh identifier list computes
the three closed forms. -/
theorem checkLoop_closed (oracle : Nat → LinearStatus.FetchOutcome) :
    ∀ (ids : List String) (i : Nat) (comp canc : List String)
      (m : List (String × LinearStatus.IssueStatus)),
    ids.Nodup →
    (∀ identifier ∈ ids, identifier ∉ comp) →
    (∀ identifier ∈ ids, identifier ∉ canc) →
    (∀ identifier ∈ ids, ∀ p ∈ m, p.1 ≠ identifier) →
    LinearStatus.checkLoop oracle ids i (comp, canc, m)
      = (comp ++ LinearStatus.completedOf oracle ids i,
         canc ++ LinearStatus.cancelledOf oracle ids i,
         m ++ LinearStatus.statusesOf oracle ids i)
  | [], i, comp, canc, m => by
    intro _ _ _ _
    simp [LinearStatus.checkLoop, LinearStatus.completedOf,
      LinearStatus.cancelledOf, LinearStatus.statusesOf]
  | identifier :: rest, i, comp, canc, m => by
    intro hnd hcomp hcanc hm
    have hnd' := (List.nodup_cons.mp hnd).2
    have hnotin := (List.nodup_cons.mp hnd).1
    have hdict : LinearStatus.dictInsert m identifier
        (LinearStatus.get_issue_status (oracle i) identifier)
        = m ++ [(identifier, LinearStatus.get_issue_status (oracle i) identifier)] :=
      dictInsert_append m identifier _
        (fun p hp => hm identifier (List.mem_cons_self ..) p hp)
    by_cases hc1 : LinearStatus.COMPLETED_STATE_TYPES.contains
        (LinearStatus.get_issue_status (oracle i) identifier).state_type
    · have hset : LinearStatus.setInsert comp identifier = comp ++ [identifier] :=
        setInsert_append comp identifier
          (hcomp identifier (List.mem_cons_self ..))
      have heq : LinearStatus.checkLoop oracle (identifier :: rest) i
          (comp, canc, m)
          = LinearStatus.checkLoop oracle rest (i + 1)
            (comp ++ [identifier], canc,
             m ++ [(identifier,
               LinearStatus.get_issue_status (oracle i) identifier)]) := by
        simp only [LinearStatus.checkLoop, hdict, hset, hc1, if_true]
      rw [heq, checkLoop_closed oracle rest (i + 1) _ _ _ hnd'
        (fun x hx => by
          intro hmem
          rcases List.mem_append.mp hmem with h1 | h1
          · exact hcomp x (List.mem_cons_of_mem _ hx) h1
          · exact hnotin (List.mem_singleton.mp h1 ▸ hx))
        (fun x hx => hcanc x (List.mem_cons_of_mem _ hx))
        (fun x hx p hp => by
          rcases List.mem_append.mp hp with h1 | h1
          · exact hm x (List.mem_cons_of_mem _ hx) p h1
          · rw [List.mem_singleton.mp h1]
            intro hpe
            apply hnotin
            have hxe : identifier = x := hpe
            rw [hxe]
            exact hx)]
      simp only [LinearStatus.completedOf, LinearStatus.cancelledOf,
        LinearStatus.statusesOf, hc1, if_true, List.append_assoc,
        List.singleton_append, List.cons_append, List.nil_append]
    · by_cases hc2 : LinearStatus.CANCELLED_STATE_TYPES.contains
          (LinearStatus.get_issue_status (oracle i) identifier).state_type
      · have hset : LinearStatus.setInsert canc identifier
            = canc ++ [identifier] :=
          setInsert_append canc identifier
            (hcanc identifier (List.mem_cons_self ..))
        have heq : LinearStatus.checkLoop oracle (identifier :: rest) i
            (comp, canc, m)
            = LinearStatus.checkLoop oracle rest (i + 1)
              (comp, canc ++ [identifier],
               m ++ [(identifier,
                 LinearStatus.get_issue_status (oracle i) identifier)]) := by
          simp only [LinearStatus.checkLoop, hdict, hset, hc1, hc2,
            if_true, if_false, Bool.false_eq_true]
        rw [heq, checkLoop_closed oracle rest (i + 1) _ _ _ hnd'
          (fun x hx => hcomp x (List.mem_cons_of_mem _ hx))
          (fun x hx => by
            intro hmem
            rcases List.mem_append.mp hmem with h1 | h1
            · exact hcanc x (List.mem_cons_of_mem _ hx) h1
            · exact hnotin (List.mem_singleton.mp h1 ▸ hx))
          (fun x hx p hp => by
            rcases List.mem_append.mp hp with h1 | h1
            · exact hm x (List.mem_cons_of_mem _ hx) p h1
            · rw [List.mem_singleton.mp h1]
              intro hpe
              apply hnotin
              have hxe : identifier = x := hpe
              rw [hxe]
              exact hx)]
        simp only [LinearStatus.completedOf, LinearStatus.cancelledOf,
          LinearStatus.statusesOf, hc1, hc2, if_true, if_false,
          Bool.false_eq_true, List.append_assoc, List.singleton_append,
          List.cons_append, List.nil_append]
      · have heq : LinearStatus.checkLoop oracle (identifier :: rest) i
            (comp, canc, m)
            = LinearStatus.checkLoop oracle rest (i + 1)
              (comp, canc,
               m ++ [(identifier,
                 LinearStatus.get_issue_status (oracle i) identifier)]) := by
          simp only [LinearStatus.checkLoop, hdict, hc1, hc2, if_false,
            Bool.false_eq_true]
        rw [heq, checkLoop_closed oracle rest (i + 1) _ _ _ hnd'
          (fun x hx => hcomp x (List.mem_cons_of_mem _ hx))
          (fun x hx => hcanc x (List.mem_cons_of_mem _ hx))
          (fun x hx p hp => by
            rcases List.mem_append.mp hp with h1 | h1
            · exact hm x (List.mem_cons_of_mem _ hx) p h1
            · rw [List.mem_singleton.mp h1]
              intro hpe
              apply hnotin
              have hxe : identifier = x := hpe
              rw [hxe]
              exact hx)]
        simp only [LinearStatus.completedOf, LinearStatus.cancelledOf,
          LinearStatus.statusesOf, hc1, hc2, if_false, Bool.false_eq_true,
          List.append_assoc, List.singleton_append, List.cons_append,
          List.nil_append]

/-- The closed-form status map is keyed by the input identifiers in
order. -/
theorem statusesOf_fst (oracle : Nat → LinearStatus.FetchOutcome) :
    ∀ (ids : List String) (i : Nat),
      (LinearStatus.statusesOf oracle ids i).map Prod.fst = ids
  | [], _ => rfl
  | identifier :: rest, i => by
    simp only [LinearStatus.statusesOf, List.map_cons]
    rw [statusesOf_fst oracle rest (i + 1)]

/-- The closed-form status map records, at position `k`, the result of
the `(i+k)`-th tracker call for the `k`-th identifier. -/
theorem statusesOf_get (oracle : Nat → LinearStatus.FetchOutcome) :
    ∀ (ids : List String) (i k : Nat) (identifier : String),
      ids[k]? = some identifier →
      (LinearStatus.statusesOf oracle ids i)[k]?
        = some (identifier,
            LinearStatus.get_issue_status (oracle (i + k)) identifier)
  | [], _, k, identifier => by simp
  | x :: rest, i, 0, identifier => by
    intro h
    simp only [List.getElem?_cons_zero, Option.some.injEq] at h
    subst h
    simp [LinearStatus.statusesOf]
  | x :: rest, i, k + 1, identifier => by
    intro h
    simp only [List.getElem?_cons_succ] at h
    have hrec := statusesOf_get oracle rest (i + 1) k identifier h
    rw [show i + (k + 1) = i + 1 + k by omega]
    simp only [LinearStatus.statusesOf, List.getElem?_cons_succ]
    exact hrec

/-- Membership characterization of the closed-form completed set. -/
theorem mem_completedOf (oracle : Nat → LinearStatus.FetchOutcome) :
    ∀ (ids : List String) (i : Nat) (identifier : String),
      identifier ∈ LinearStatus.completedOf oracle ids i ↔
      ∃ k, ids[k]? = some identifier ∧
        LinearStatus.COMPLETED_STATE_TYPES.contains
          (LinearStatus.get_issue_status (oracle (i + k))
            identifier).state_type = true
  | [], i, identifier => by simp [LinearStatus.completedOf]
  | x :: rest, i, identifier => by
    constructor
    · intro h
      rw [LinearStatus.completedOf] at h
      by_cases hc : LinearStatus.COMPLETED_STATE_TYPES.contains
          (LinearStatus.get_issue_status (oracle i) x).state_type
      · rw [if_pos hc] at h
        rcases List.mem_cons.mp h with h1 | h1
        · subst h1
          exact ⟨0, by simp, by simpa using hc⟩
        · obtain ⟨k, hk1, hk2⟩ :=
            (mem_completedOf oracle rest (i + 1) identifier).mp h1
          exact ⟨k + 1, by simpa using hk1,
            by rw [show i + (k + 1) = i + 1 + k by omega]; exact hk2⟩
      · rw [if_neg hc] at h
        obtain ⟨k, hk1, hk2⟩ :=
          (mem_completedOf oracle rest (i + 1) identifier).mp h
        exact ⟨k + 1, by simpa using hk1,
          by rw [show i + (k + 1) = i + 1 + k by omega]; exact hk2⟩
    · rintro ⟨k, hk1, hk2⟩
      rw [LinearStatus.completedOf]
      cases k with
      | zero =>
        simp only [List.getElem?_cons_zero, Option.some.injEq] at hk1
        subst hk1
        rw [if_pos (by simpa using hk2)]
        exact List.mem_cons_self ..
      | succ k' =>
        simp only [List.getElem?_cons_succ] at hk1
        have hmem := (mem_completedOf oracle rest (i + 1) identifier).mpr
          ⟨k', hk1, by rw [show i + 1 + k' = i + (k' + 1) by omega]; exact hk2⟩
        by_cases hc : LinearStatus.COMPLETED_STATE_TYPES.contains
            (LinearStatus.get_issue_status (oracle i) x).state_type
        · rw [if_pos hc]
          exact List.mem_cons_of_mem _ hmem
        · rw [if_neg hc]
          exact hmem

/-- Membership characterization of the closed-form cancelled set. -/
theorem mem_cancelledOf (oracle : Nat → LinearStatus.FetchOutcome) :
    ∀ (ids : List String) (i : Nat) (identifier : String),
      identifier ∈ LinearStatus.cancelledOf oracle ids i ↔
      ∃ k, ids[k]? = some identifier ∧
        LinearStatus.COMPLETED_STATE_TYPES.contains
          (LinearStatus.get_issue_status (oracle (i + k))
            identifier).state_type = false ∧
        LinearStatus.CANCELLED_STATE_TYPES.contains
          (LinearStatus.get_issue_status (oracle (i + k))
            identifier).state_type = true
  | [], i, identifier => by simp [LinearStatus.cancelledOf]
  | x :: rest, i, identifier => by
    constructor
    · intro h
      rw [LinearStatus.cancelledOf] at h
      by_cases hc1 : LinearStatus.COMPLETED_STATE_TYPES.contains
          (LinearStatus.get_issue_status (oracle i) x).state_type
      · rw [if_pos hc1] at h
        obtain ⟨k, hk1, hk2, hk3⟩ :=
          (mem_cancelledOf oracle rest (i + 1) identifier).mp h
        exact ⟨k + 1, by simpa using hk1,
          by rw [show i + (k + 1) = i + 1 + k by omega]; exact hk2,
          by rw [show i + (k + 1) = i + 1 + k by omega]; exact hk3⟩
      · rw [if_neg hc1] at h
        by_cases hc2 : LinearStatus.CANCELLED_STATE_TYPES.contains
            (LinearStatus.get_issue_status (oracle i) x).state_type
        · rw [if_pos hc2] at h
          rcases List.mem_cons.mp h with h1 | h1
          · subst h1
            exact ⟨0, by simp, by simpa using hc1, by simpa using hc2⟩
          · obtain ⟨k, hk1, hk2, hk3⟩ :=
              (mem_cancelledOf oracle rest (i + 1) identifier).mp h1
            exact ⟨k + 1, by simpa using hk1,
              by rw [show i + (k + 1) = i + 1 + k by omega]; exact hk2,
              by rw [show i + (k + 1) = i + 1 + k by omega]; exact hk3⟩
        · rw [if_neg hc2] at h
          obtain ⟨k, hk1, hk2, hk3⟩ :=
            (mem_cancelledOf oracle rest (i + 1) identifier).mp h
          exact ⟨k + 1, by simpa using hk1,
            by rw [show i + (k + 1) = i + 1 + k by omega]; exact hk2,
            by rw [show i + (k + 1) = i + 1 + k by omega]; exact hk3⟩
    · rintro ⟨k, hk1, hk2, hk3⟩
      rw [LinearStatus.cancelledOf]
      cases k with
      | zero =>
        simp only [List.getElem?_cons_zero, Option.some.injEq] at hk1
        subst hk1
        rw [if_neg (by simp at hk2 ⊢; simpa using hk2),
          if_pos (by simpa using hk3)]
        exact List.mem_cons_self ..
      | succ k' =>
        simp only [List.getElem?_cons_succ] at hk1
        have hmem := (mem_cancelledOf oracle rest (i + 1) identifier).mpr
          ⟨k', hk1,
            by rw [show i + 1 + k' = i + (k' + 1) by omega]; exact hk2,
            by rw [show i + 1 + k' = i + (k' + 1) by omega]; exact hk3⟩
        by_cases hc1 : LinearStatus.COMPLETED_STATE_TYPES.contains
            (LinearStatus.get_issue_status (oracle i) x).state_type
        · rw [if_pos hc1]
          exact hmem
        · rw [if_neg hc1]
          by_cases hc2 : LinearStatus.CANCELLED_STATE_TYPES.contains
              (LinearStatus.get_issue_status (oracle i) x).state_type
          · rw [if_pos hc2]
            exact List.mem_cons_of_mem _ hmem
          · rw [if_neg hc2]
            exact hmem

/-- A state type counts as completed exactly when it is `"completed"`. -/
theorem completed_contains_iff (st : String) :
    LinearStatus.COMPLETED_STATE_TYPES.contains st = true ↔
      st = "completed" := by
  rw [List.elem_iff]
  simp [LinearStatus.COMPLETED_STATE_TYPES]

/-- A state type counts as cancelled exactly when it is `"canceled"`. -/
theorem cancelled_contains_iff (st : String) :
    LinearStatus.CANCELLED_STATE_TYPES.contains st = true ↔
      st = "canceled" := by
  rw [List.elem_iff]
  simp [LinearStatus.CANCELLED_STATE_TYPES]

/-- A `getElem?` hit is inside the list. -/
theorem lt_length_of_getElem?_eq_some (l : List String) (k : Nat)
    (a : String) (h : l[k]? = some a) : k < l.length := by
  by_contra hge
  rw [List.getElem?_eq_none (by omega)] at h
  exact Option.noConfusion h

/-- C5: for every duplicate-free identifier list, the tracker status
check fails open per identifier — the status map has one entry per input
identifier in order, recording the outcome of that identifier's call; an
errored call yields state type `"unknown"` and puts the identifier in
neither returned set; the completed set is exactly the identifiers whose
recorded state type is `"completed"`, the cancelled set exactly those
with `"canceled"`, and the two sets are disjoint. -/
theorem tracker_check_fails_open (oracle : Nat → LinearStatus.FetchOutcome)
    (ids : List String) (hnd : ids.Nodup) :
    ((LinearStatus.check_issue_statuses oracle ids).2.2.map Prod.fst
      = ids) ∧
    (∀ k identifier, ids[k]? = some identifier →
      (LinearStatus.check_issue_statuses oracle ids).2.2[k]?
        = some (identifier,
            LinearStatus.get_issue_status (oracle k) identifier)) ∧
    (∀ k identifier e, ids[k]? = some identifier → oracle k = .err e →
      (LinearStatus.get_issue_status (oracle k) identifier).state_type
        = "unknown" ∧
      identifier ∉ (LinearStatus.check_issue_statuses oracle ids).1 ∧
      identifier ∉ (LinearStatus.check_issue_statuses oracle ids).2.1) ∧
    (∀ identifier,
      identifier ∈ (LinearStatus.check_issue_statuses oracle ids).1 ↔
      ∃ k, ids[k]? = some identifier ∧
        (LinearStatus.get_issue_status (oracle k) identifier).state_type
          = "completed") ∧
    (∀ identifier,
      identifier ∈ (LinearStatus.check_issue_statuses oracle ids).2.1 ↔
      ∃ k, ids[k]? = some identifier ∧
        (LinearStatus.get_issue_status (oracle k) identifier).state_type
          = "canceled") ∧
    (∀ identifier,
      identifier ∈ (LinearStatus.check_issue_statuses oracle ids).1 →
      identifier ∉ (LinearStatus.check_issue_statuses oracle ids).2.1) := by
  have hclosed : LinearStatus.check_issue_statuses oracle ids
      = (LinearStatus.completedOf oracle ids 0,
         LinearStatus.cancelledOf oracle ids 0,
         LinearStatus.statusesOf oracle ids 0) := by
    unfold LinearStatus.check_issue_statuses
    rw [checkLoop_closed oracle ids 0 [] [] [] hnd (by simp) (by simp)
      (by simp)]
    simp
  have hcompl : ∀ identifier,
      identifier ∈ (LinearStatus.check_issue_statuses oracle ids).1 ↔
      ∃ k, ids[k]? = some identifier ∧
        (LinearStatus.get_issue_status (oracle k) identifier).state_type
          = "completed" := by
    intro identifier
    rw [hclosed]
    show identifier ∈ LinearStatus.completedOf oracle ids 0 ↔ _
    rw [mem_completedOf]
    constructor
    · rintro ⟨k, hk1, hk2⟩
      rw [Nat.zero_add] at hk2
      exact ⟨k, hk1, (completed_contains_iff _).mp hk2⟩
    · rintro ⟨k, hk1, hk2⟩
      refine ⟨k, hk1, ?_⟩
      rw [Nat.zero_add]
      exact (completed_contains_iff _).mpr hk2
  have hcanc : ∀ identifier,
      identifier ∈ (LinearStatus.check_issue_statuses oracle ids).2.1 ↔
      ∃ k, ids[k]? = some identifier ∧
        (LinearStatus.get_issue_status (oracle k) identifier).state_type
          = "canceled" := by
    intro identifier
    rw [hclosed]
    show identifier ∈ LinearStatus.cancelledOf oracle ids 0 ↔ _
    rw [mem_cancelledOf]
    constructor
    · rintro ⟨k, hk1, hk2, hk3⟩
      rw [Nat.zero_add] at hk3
      exact ⟨k, hk1, (cancelled_contains_iff _).mp hk3⟩
    · rintro ⟨k, hk1, hk2⟩
      refine ⟨k, hk1, ?_, ?_⟩
      · rw [Nat.zero_add]
        rw [Bool.eq_false_iff]
        intro hcontra
        have := (completed_contains_iff _).mp hcontra
        rw [hk2] at this
        exact absurd this (by decide)
      · rw [Nat.zero_add]
        exact (cancelled_contains_iff _).mpr hk2
  refine ⟨?_, ?_, ?_, hcompl, hcanc, ?_⟩
  · rw [hclosed]
    exact statusesOf_fst oracle ids 0
  · intro k identifier h
    rw [hclosed]
    have := statusesOf_get oracle ids 0 k identifier h
    simpa using this
  · intro k identifier e hk herr
    have hunk : (LinearStatus.get_issue_status (oracle k)
        identifier).state_type = "unknown" := by
      rw [herr]
      rfl
    refine ⟨hunk, ?_, ?_⟩
    · intro hmem
      obtain ⟨k', hk1, hk2⟩ := (hcompl identifier).mp hmem
      have hkk : k = k' := List.getElem?_inj
        (lt_length_of_getElem?_eq_some ids k identifier hk) hnd
        (hk.trans hk1.symm)
      rw [← hkk, hunk] at hk2
      exact absurd hk2 (by decide)
    · intro hmem
      obtain ⟨k', hk1, hk2⟩ := (hcanc identifier).mp hmem
      have hkk : k = k' := List.getElem?_inj
        (lt_length_of_getElem?_eq_some ids k identifier hk) hnd
        (hk.trans hk1.symm)
      rw [← hkk, hunk] at hk2
      exact absurd hk2 (by decide)
  · intro identifier hmem hmem2
    obtain ⟨k, hk1, hk2⟩ := (hcompl identifier).mp hmem
    obtain ⟨k', hk1', hk2'⟩ := (hcanc identifier).mp hmem2
    have hkk : k = k' := List.getElem?_inj
      (lt_length_of_getElem?_eq_some ids k identifier hk1) hnd
      (hk1.trans hk1'.symm)
    rw [← hkk] at hk2'
    rw [hk2] at hk2'
    exact absurd hk2' (by decide)

/-- Witness for C5: scenario S2-like — of four issues, the first is Done,
the second call errors (fails open), the third is canceled. -/
theorem tracker_check_fails_open_witness :
    ((LinearStatus.check_issue_statuses exOracle
        ["M2A-1", "M2A-2", "M2A-3", "M2A-4"]).2.2.map Prod.fst
      = ["M2A-1", "M2A-2", "M2A-3", "M2A-4"]) ∧
    "M2A-1" ∈ (LinearStatus.check_issue_statuses exOracle
        ["M2A-1", "M2A-2", "M2A-3", "M2A-4"]).1 ∧
    "M2A-3" ∈ (LinearStatus.check_issue_statuses exOracle
        ["M2A-1", "M2A-2", "M2A-3", "M2A-4"]).2.1 ∧
    "M2A-2" ∉ (LinearStatus.check_issue_statuses exOracle
        ["M2A-1", "M2A-2", "M2A-3", "M2A-4"]).1 ∧
    "M2A-2" ∉ (LinearStatus.check_issue_statuses exOracle
        ["M2A-1", "M2A-2", "M2A-3", "M2A-4"]).2.1 := by
  have h := tracker_check_fails_open exOracle
    ["M2A-1", "M2A-2", "M2A-3", "M2A-4"] (by decide)
  have herr := h.2.2.1 1 "M2A-2" "timeout" (by decide) (by decide)
  exact ⟨h.1,
    (h.2.2.2.1 "M2A-1").mpr ⟨0, by decide, by decide⟩,
    (h.2.2.2.2.1 "M2A-3").mpr ⟨2, by decide, by decide⟩,
    herr.2.1, herr.2.2⟩

/-! ## C10 — duplicate add is rejected atomically -/

/-- C10: when the `add` command is given an identifier already present in
the queue store, it exits with code 1 and never calls `save_queue`, so
the persisted queue file is left exactly as it was and no job record is
appended. -/
theorem cmd_add_rejects_duplicate (args : QueueRunner.AddArgs)
    (state : QueueRunner.QueueState) (now : String)
    (hdup : args.id ∈ state.jobs.map QueueRunner.QueueJob.id) :
    QueueRunner.cmd_add args true state now = (1, none) ∧
    QueueRunner.persistedAfter state
      (QueueRunner.cmd_add args true state now).2 = state := by
  have hcontains :
      (state.jobs.map QueueRunner.QueueJob.id).contains args.id = true :=
    List.elem_iff.mpr hdup
  have h1 : QueueRunner.cmd_add args true state now = (1, none) := by
    unfold QueueRunner.cmd_add
    rw [if_neg (by simp), if_pos hcontains]
  exact ⟨h1, by rw [h1]; rfl⟩

/-- Witness for C10 at a one-job queue. -/
theorem cmd_add_rejects_duplicate_witness :
    QueueRunner.cmd_add
      { spec_path := "spec.txt", id := "metroplex" } true
      { jobs := [{ id := "metroplex", spec_path := "old.txt" }] } "t"
      = (1, none) :=
  (cmd_add_rejects_duplicate
    { spec_path := "spec.txt", id := "metroplex" }
    { jobs := [{ id := "metroplex", spec_path := "old.txt" }] } "t"
    (by decide)).1

/-! ## C9 — canonical spec swap and restore -/

/-- C9: for a non-dry-run job whose spec file exists and whose backup
path starts clean — if the job's spec path differs from the canonical
path and the canonical file A exists, then while the child runs the
canonical file holds the job spec's bytes and after completion (normal
exit, failure, or interrupt alike) the canonical file is byte-identical
to A; if A did not exist, the canonical file is absent afterwards; and if
the job's spec path equals the canonical path, the canonical file is
never touched. -/
theorem spec_swap_restore (job : QueueRunner.QueueJob)
    (env : QueueRunner.RunEnv) (fs : QueueRunner.FS) (b : String)
    (hspec : env.specContent = some b) (hbk : fs.backup = none) :
    (env.specIsCanonical = true →
      (QueueRunner.run_job job env fs false).2.1 = fs ∧
      (QueueRunner.run_job job env fs false).2.2.1 = some fs) ∧
    (env.specIsCanonical = false →
      (∀ a, fs.canonical = some a →
        (QueueRunner.run_job job env fs false).2.2.1
          = some { canonical := some b, backup := some a } ∧
        (QueueRunner.run_job job env fs false).2.1.canonical = some a) ∧
      (fs.canonical = none →
        (QueueRunner.run_job job env fs false).2.2.1
          = some { canonical := some b, backup := none } ∧
        (QueueRunner.run_job job env fs false).2.1.canonical = none)) := by
  constructor
  · intro hcan
    cases houtcome : env.outcome <;>
      simp [QueueRunner.run_job, hspec, hcan, houtcome]
  · intro hcan
    constructor
    · intro a ha
      cases houtcome : env.outcome <;>
        simp [QueueRunner.run_job, hspec, hcan, houtcome, ha, hbk]
    · intro ha
      cases houtcome : env.outcome <;>
        simp [QueueRunner.run_job, hspec, hcan, houtcome, ha, hbk]

/-- Witness for C9: scenario S6 — canonical content "A", job spec "B";
during the run the canonical file holds "B", afterwards "A" again, under
every outcome (shown here for a failing exit). -/
theorem spec_swap_restore_witness :
    (QueueRunner.run_job { id := "j", spec_path := "b.txt" }
      { specContent := some "B", specIsCanonical := false,
        outcome := .exited 1 }
      { canonical := some "A", backup := none } false).2.2.1
      = some { canonical := some "B", backup := some "A" } ∧
    (QueueRunner.run_job { id := "j", spec_path := "b.txt" }
      { specContent := some "B", specIsCanonical := false,
        outcome := .exited 1 }
      { canonical := some "A", backup := none } false).2.1.canonical
      = some "A" := by
  have h := (spec_swap_restore { id := "j", spec_path := "b.txt" }
    { specContent := some "B", specIsCanonical := false,
      outcome := .exited 1 }
    { canonical := some "A", backup := none } "B" rfl rfl).2 rfl
  exact h.1 "A" rfl

/-! ## C8 — job status mapping and finally-stage persistence -/

/-- The updated job record of `_run_job` does not depend on the file
state, and neither does the re-raise flag. -/
theorem run_job_ignores_fs (j : QueueRunner.QueueJob)
    (e : QueueRunner.RunEnv) (f f' : QueueRunner.FS) (d : Bool) :
    (QueueRunner.run_job j e f d).1 = (QueueRunner.run_job j e f' d).1 ∧
    (QueueRunner.run_job j e f d).2.2.2
      = (QueueRunner.run_job j e f' d).2.2.2 := by
  cases hs : e.specContent <;> cases hd : d <;> cases ho : e.outcome <;>
    simp [QueueRunner.run_job, hs, hd, ho]

/-- If the loop body never raises on an index outside the processed list,
indices not in the list keep their job record. -/
theorem startLoop_untouched (envs : Nat → QueueRunner.RunEnv) :
    ∀ (idxs : List Nat) (k : Nat) (jobs : List QueueRunner.QueueJob)
      (fs : QueueRunner.FS) (saves : List (List QueueRunner.QueueJob))
      (i : Nat), i ∉ idxs →
      (QueueRunner.startLoop envs false idxs k jobs fs saves).jobs[i]?
        = jobs[i]?
  | [], k, jobs, fs, saves, i => fun _ => rfl
  | i0 :: rest, k, jobs, fs, saves, i => by
    intro hni
    have hne : i ≠ i0 := fun h => hni (h ▸ List.mem_cons_self ..)
    have hni' : i ∉ rest := fun h => hni (List.mem_cons_of_mem _ h)
    rw [QueueRunner.startLoop]
    by_cases hr : (QueueRunner.run_job (jobs.getD i0 default) (envs k)
        fs false).2.2.2
    · simp only [hr, if_true]
      exact List.getElem?_set_ne hne.symm
    · simp only [hr, Bool.false_eq_true, if_false]
      rw [startLoop_untouched envs rest (k + 1) _ _ _ i hni']
      exact List.getElem?_set_ne hne.symm

/-- The `finally` save of the loop: once anything is processed, the last
saved snapshot is the loop's final job list. -/
theorem startLoop_last_save (envs : Nat → QueueRunner.RunEnv) :
    ∀ (idxs : List Nat) (k : Nat) (jobs : List QueueRunner.QueueJob)
      (fs : QueueRunner.FS) (saves : List (List QueueRunner.QueueJob)),
      idxs ≠ [] →
      (QueueRunner.startLoop envs false idxs k jobs fs saves).saves.getLast?
        = some (QueueRunner.startLoop envs false idxs k jobs fs saves).jobs
  | [], _, _, _, _ => fun h => absurd rfl h
  | i0 :: rest, k, jobs, fs, saves => by
    intro _
    rw [QueueRunner.startLoop]
    by_cases hr : (QueueRunner.run_job (jobs.getD i0 default) (envs k)
        fs false).2.2.2
    · simp only [hr, if_true]
      exact List.getLast?_concat _
    · simp only [hr, Bool.false_eq_true, if_false]
      cases hrest : rest with
      | nil =>
        rw [QueueRunner.startLoop]
        exact List.getLast?_concat _
      | cons r rs =>
        rw [← hrest]
        exact startLoop_last_save envs rest (k + 1) _ _ _
          (by rw [hrest]; exact List.cons_ne_nil r rs)

/-- Every processed job's record in the final job list is the `_run_job`
update of its original record. -/
theorem startLoop_processed (envs : Nat → QueueRunner.RunEnv) :
    ∀ (idxs : List Nat) (k : Nat) (jobs : List QueueRunner.QueueJob)
      (fs : QueueRunner.FS) (saves : List (List QueueRunner.QueueJob)),
      idxs.Nodup → (∀ i ∈ idxs, i < jobs.length) →
      ∀ n i, idxs[n]? = some i →
        n < (QueueRunner.startLoop envs false idxs k jobs fs
          saves).saves.length - saves.length →
        (QueueRunner.startLoop envs false idxs k jobs fs saves).jobs[i]?
          = some (QueueRunner.run_job (jobs.getD i default) (envs (k + n))
              fs false).1
  | [], k, jobs, fs, saves => by
    intro _ _ n i h
    simp at h
  | i0 :: rest, k, jobs, fs, saves => by
    intro hnd hbound n i hn hcount
    have hnd' := (List.nodup_cons.mp hnd).2
    have hni0 := (List.nodup_cons.mp hnd).1
    have hset : (jobs.set i0 (QueueRunner.run_job (jobs.getD i0 default)
        (envs k) fs false).1)[i0]?
        = some (QueueRunner.run_job (jobs.getD i0 default) (envs k)
            fs false).1 := by
      rw [List.getElem?_set_self', List.getElem?_eq_getElem
        (hbound i0 (List.mem_cons_self ..))]
      rfl
    rw [QueueRunner.startLoop] at hcount ⊢
    by_cases hr : (QueueRunner.run_job (jobs.getD i0 default) (envs k)
        fs false).2.2.2
    · simp only [hr, if_true, Bool.false_eq_true, if_false,
        List.length_append, List.length_cons, List.length_nil] at hcount ⊢
      have hn0 : n = 0 := by omega
      subst hn0
      simp only [List.getElem?_cons_zero, Option.some.injEq] at hn
      subst hn
      simp only [Nat.add_zero]
      exact hset
    · simp only [hr, Bool.false_eq_true, if_false] at hcount ⊢
      cases n with
      | zero =>
        have hii : i0 = i := by simpa using hn
        subst hii
        rw [startLoop_untouched envs rest (k + 1) _ _ _ i0 hni0]
        simp only [Nat.add_zero]
        exact hset
      | succ n' =>
        simp only [List.getElem?_cons_succ] at hn
        have hi : i ∈ rest := List.getElem?_mem hn
        have hii0 : i ≠ i0 := fun h => hni0 (h ▸ hi)
        have hbound' : ∀ x ∈ rest,
            x < (jobs.set i0 (QueueRunner.run_job (jobs.getD i0 default)
              (envs k) fs false).1).length := by
          intro x hx
          rw [List.length_set]
          exact hbound x (List.mem_cons_of_mem _ hx)
        have hcount' : n' < (QueueRunner.startLoop envs false rest (k + 1)
            (jobs.set i0 (QueueRunner.run_job (jobs.getD i0 default)
              (envs k) fs false).1)
            (QueueRunner.run_job (jobs.getD i0 default) (envs k)
              fs false).2.1
            (saves ++ [jobs.set i0 (QueueRunner.run_job
              (jobs.getD i0 default) (envs k) fs false).1])).saves.length
            - (saves ++ [jobs.set i0 (QueueRunner.run_job
              (jobs.getD i0 default) (envs k) fs false).1]).length := by
          simp only [List.length_append, List.length_cons, List.length_nil]
          omega
        have hrec := startLoop_processed envs rest (k + 1) _ _ _ hnd'
          hbound' n' i hn hcount'
        rw [hrec]
        have hgetD : (jobs.set i0 (QueueRunner.run_job (jobs.getD i0 default)
            (envs k) fs false).1).getD i default = jobs.getD i default := by
          rw [List.getD_eq_getElem?_getD, List.getElem?_set_ne hii0.symm,
            ← List.getD_eq_getElem?_getD]
        rw [hgetD, show k + 1 + n' = k + (n' + 1) by omega]
        exact congrArg some (run_job_ignores_fs (jobs.getD i default)
          (envs (k + (n' + 1)))
          (QueueRunner.run_job (jobs.getD i0 default) (envs k) fs false).2.1
          fs false).1

/-- C8: for every non-dry-run queue job whose spec file exists, the
runner maps a normal child exit code 0 to completed, 130 to interrupted,
and any other code to failed with a non-empty error message; a captured
exception marks the job failed; a user interrupt marks it interrupted and
re-raises; and the `finally` stage of the start loop persists the queue
after every processed job — the last saved snapshot equals the final
in-memory job list, in which every processed job carries its `_run_job`
update. -/
theorem queue_run_status_persist (j : QueueRunner.QueueJob)
    (e : QueueRunner.RunEnv) (f : QueueRunner.FS) (b : String)
    (hspec : e.specContent = some b)
    (jobs : List QueueRunner.QueueJob) (envs : Nat → QueueRunner.RunEnv)
    (fs : QueueRunner.FS) :
    (e.outcome = .exited 0 →
      (QueueRunner.run_job j e f false).1.status = .completed) ∧
    (e.outcome = .exited 130 →
      (QueueRunner.run_job j e f false).1.status = .interrupted) ∧
    (∀ c, e.outcome = .exited c → c ≠ 0 → c ≠ 130 →
      (QueueRunner.run_job j e f false).1.status = .failed ∧
      ∃ msg, (QueueRunner.run_job j e f false).1.error = some msg ∧
        msg ≠ "") ∧
    (∀ m, e.outcome = .exc m →
      (QueueRunner.run_job j e f false).1.status = .failed) ∧
    (e.outcome = .interruptedSig →
      (QueueRunner.run_job j e f false).1.status = .interrupted ∧
      (QueueRunner.run_job j e f false).2.2.2 = true) ∧
    (QueueRunner.processableIdxs jobs ≠ [] →
      (QueueRunner.cmd_start jobs envs fs false).saves.getLast?
        = some (QueueRunner.cmd_start jobs envs fs false).jobs) ∧
    (∀ n i, (QueueRunner.processableIdxs jobs)[n]? = some i →
      n < (QueueRunner.cmd_start jobs envs fs false).saves.length →
      (QueueRunner.cmd_start jobs envs fs false).jobs[i]?
        = some (QueueRunner.run_job (jobs.getD i default) (envs n)
            fs false).1) := by
  refine ⟨?_, ?_, ?_, ?_, ?_, ?_, ?_⟩
  · intro h
    simp [QueueRunner.run_job, hspec, h]
  · intro h
    simp [QueueRunner.run_job, hspec, h]
  · intro c h h0 h130
    constructor
    · simp [QueueRunner.run_job, hspec, h, h0, h130]
    · refine ⟨"Process exited with code " ++ toString c, ?_, ?_⟩
      · simp [QueueRunner.run_job, hspec, h, h0, h130]
      · intro hcontra
        have hlen := congrArg String.length hcontra
        rw [String.length_append] at hlen
        have h25 : ("Process exited with code " : String).length = 25 := by
          decide
        rw [h25] at hlen
        simp at hlen
  · intro m h
    simp [QueueRunner.run_job, hspec, h]
  · intro h
    simp [QueueRunner.run_job, hspec, h]
  · intro hne
    exact startLoop_last_save envs (QueueRunner.processableIdxs jobs) 0
      jobs fs [] hne
  · intro n i hn hcount
    have hnd : (QueueRunner.processableIdxs jobs).Nodup :=
      (List.nodup_range jobs.length).filter _
    have hbound : ∀ i ∈ QueueRunner.processableIdxs jobs,
        i < jobs.length := by
      intro x hx
      exact List.mem_range.mp (List.mem_of_mem_filter hx)
    have h := startLoop_processed envs (QueueRunner.processableIdxs jobs)
      0 jobs fs [] hnd hbound n i hn (by simpa using hcount)
    simpa using h

/-- Witness for C8: a queue of three processable jobs whose children exit
0, 7 and 130 — the final snapshot records completed, failed, interrupted,
and the last save equals the final state. -/
theorem queue_run_status_persist_witness :
    ((QueueRunner.run_job { id := "a", spec_path := "s" }
      { specContent := some "S", outcome := .exited 0 }
      {} false).1.status = QueueRunner.JobStatus.completed) ∧
    ((QueueRunner.run_job { id := "b", spec_path := "s" }
      { specContent := some "S", outcome := .exited 7 }
      {} false).1.status = QueueRunner.JobStatus.failed) ∧
    ((QueueRunner.run_job { id := "c", spec_path := "s" }
      { specContent := some "S", outcome := .exited 130 }
      {} false).1.status = QueueRunner.JobStatus.interrupted) ∧
    ((QueueRunner.cmd_start [{ id := "a", spec_path := "s" }]
        (fun _ => { specContent := some "S", outcome := .exited 0 })
        {} false).saves.getLast?
      = some (QueueRunner.cmd_start [{ id := "a", spec_path := "s" }]
          (fun _ => { specContent := some "S", outcome := .exited 0 })
          {} false).jobs) := by
  refine ⟨?_, ?_, ?_, ?_⟩
  · exact (queue_run_status_persist { id := "a", spec_path := "s" }
      { specContent := some "S", outcome := .exited 0 } {} "S" rfl [] 
      (fun _ => {}) {}).1 rfl
  · exact ((queue_run_status_persist { id := "b", spec_path := "s" }
      { specContent := some "S", outcome := .exited 7 } {} "S" rfl []
      (fun _ => {}) {}).2.2.1 7 rfl (by decide) (by decide)).1
  · exact (queue_run_status_persist { id := "c", spec_path := "s" }
      { specContent := some "S", outcome := .exited 130 } {} "S" rfl []
      (fun _ => {}) {}).2.1 rfl
  · exact (queue_run_status_persist { id := "x", spec_path := "s" }
      { specContent := some "S", outcome := .exited 0 } {} "S" rfl
      [{ id := "a", spec_path := "s" }]
      (fun _ => { specContent := some "S", outcome := .exited 0 })
      {}).2.2.2.2.2.1 (by decide)
